import Mathlib

/-! # go-raml: structure synthesis, the advanced-type classifier, the body walker

A shallow embedding of `commands/struct.go` (`newStructDef`,
`newStructDefFromType`, `newStructDefFromBody`, `handleAdvancedType` with its
eight branches, `structDef.generate`), of `codegen/golang/body.go` (the walk
over the resource tree) and of `commands/server_resources_gen.go`
(`generateGo` and its two files).

Go values are embedded as follows.

* A Go `string` is a Lean `String`.
* A Go `map[string]V` is a `GoMap V`: a list of key/value entries. A Go map
  never holds one key twice (`GoMap.WF`); the order of the list stands for the
  order in which one `range` loop happens to visit the entries.
* The dynamically typed `raml.Type.Type` (`interface{}`) is a `RawType`.
* A failed unchecked type assertion `x.(string)` is a run-time panic; the
  functions that can panic return `Option`, with `none` for the panic.
* A Go `error` is an `Option`, with `none` for `nil`; functions with effects
  take the state they act on and return it with their result.
* Functions of the repository that the three files call but that are
  declared in other files are the fields of an `Env`, a `WalkEnv` or an
  `EmitEnv`, or are modelled from the spec where their doc comment says so.
-/

namespace GoRaml

/-! ## Go maps -/

/-- A Go `map[string]V`, as the list of its entries. -/
abbrev GoMap (V : Type) := List (String × V)

namespace GoMap

variable {V : Type}

/-- The keys of the entries, in list order. -/
def keys (m : GoMap V) : List String := m.map Prod.fst

/-- Well-formedness of a Go map: no key occurs twice. -/
def WF (m : GoMap V) : Prop := m.keys.Nodup

instance (m : GoMap V) : Decidable m.WF := inferInstanceAs (Decidable m.keys.Nodup)

/-- The Go expression `m[k]` with the comma-ok form: the value stored under `k`, if any. -/
def get (m : GoMap V) (k : String) : Option V :=
  match m with
  | [] => none
  | (k', v) :: rest => if k' = k then some v else get rest k

/-- The Go statement `m[k] = v`: replaces the entry of `k`, or adds one. -/
def set (m : GoMap V) (k : String) (v : V) : GoMap V :=
  match m with
  | [] => [(k, v)]
  | (k', v') :: rest => if k' = k then (k, v) :: rest else (k', v') :: set rest k v

/-- The Go expression `len(m)`. -/
def len (m : GoMap V) : Nat := m.length

end GoMap

/-! ## The standard-library string functions used by `struct.go` -/

namespace strings

/-- Splitting of a character list at every occurrence of `sep`. -/
def splitChars (sep : Char) : List Char → List (List Char)
  | [] => [[]]
  | c :: cs =>
    if c = sep then [] :: splitChars sep cs
    else
      match splitChars sep cs with
      | [] => [[c]]
      | w :: ws => (c :: w) :: ws

/-- Go `strings.Split(s, sep)` for a one-character separator: the substrings
between the separators, `[s]` when `sep` does not occur. -/
def Split (s : String) (sep : Char) : List String :=
  (splitChars sep s.data).map String.mk

/-- Go `unicode.IsSpace`: the code points with the Unicode White_Space property. -/
def isSpace (c : Char) : Bool :=
  let n := c.toNat
  (9 ≤ n && n ≤ 13) || n = 32 || n = 0x85 || n = 0xA0 || n = 0x1680 ||
  (0x2000 ≤ n && n ≤ 0x200A) || n = 0x2028 || n = 0x2029 || n = 0x202F ||
  n = 0x205F || n = 0x3000

/-- Go `strings.TrimSpace`: drops the leading and the trailing white space. -/
def TrimSpace (s : String) : String :=
  String.mk ((s.data.dropWhile isSpace).reverse.dropWhile isSpace).reverse

/-- Go `strings.ToLower`, on the ASCII letters. Go lowers every Unicode letter;
`struct.go` only compares the result with the ASCII word `object`, and no
character outside ASCII lowers to one of its letters, so that comparison is
decided alike. `server_resources_gen.go` lowers the resource name of a file
name; what is proved of the file names holds for any lowering. -/
def ToLower (s : String) : String := String.mk (s.data.map Char.toLower)

end strings

/-! ## The RAML model (package `raml`) -/

/-- The dynamically typed value of `raml.Type.Type`: absent (`nil`), one
string, or a list of type names (the multiple-inheritance form). -/
inductive RawType where
  | absent
  | single (name : String)
  | multiple (names : List String)
  deriving DecidableEq, Repr

/-- The record `raml.Property`. -/
structure Property where
  Name : String
  Type_ : String
  Required : Bool
  deriving DecidableEq, Repr

/-- The value a property name is mapped to in `raml.Type.Properties`: the
declared type name and the required flag. -/
structure PropertyDecl where
  Type_ : String
  Required : Bool
  deriving DecidableEq, Repr

/-- The record `raml.Type`, restricted to the fields `struct.go` reads. -/
structure RamlType where
  Type_ : RawType
  Properties : GoMap PropertyDecl
  AdditionalProperties : String
  Description : String
  deriving DecidableEq, Repr

/-- The zero value `raml.Type{}`. -/
def RamlType.zero : RamlType :=
  { Type_ := .absent, Properties := [], AdditionalProperties := "", Description := "" }

/-- Modelled from the spec: `raml.ToProperty` (package `raml`), which turns an
entry of a property set into a `Property`. By §3 a property is a name, a
declared type name and a required flag, and property sets are keyed by the
property name. -/
def ToProperty (k : String) (v : PropertyDecl) : Property :=
  { Name := k, Type_ := v.Type_, Required := v.Required }

/-- Modelled from the spec: `interfaceToString` (package `commands`), which
turns the raw type value into the type expression. By §3 and §9 the expression
is the single type name, or the comma-joined list of names. The value at
`absent` is never read: `handleAdvancedType` replaces an absent type first. -/
def interfaceToString : RawType → String
  | .absent => ""
  | .single s => s
  | .multiple names => ",".intercalate names

/-- The functions `struct.go` calls that are declared elsewhere: the type
converters, the comment builder, `strings.Title`, and the four predicates of
`raml.Type`. -/
structure Env where
  convertToGoType : String → String
  convertUnion : String → String
  commentBuilder : String → List String
  Title : String → String
  IsUnion : RamlType → Bool
  IsArray : RamlType → Bool
  IsMap : RamlType → Bool
  IsEnum : RamlType → Bool

/-! ## `commands/struct.go` -/

/-- The record `fieldDef`. -/
structure fieldDef where
  Name : String
  Type_ : String
  Required : Bool
  IsComposition : Bool
  deriving DecidableEq, Repr

/-- The record `structDef`. -/
structure structDef where
  Name : String
  Description : List String
  PackageName : String
  Fields : GoMap fieldDef
  OneLineDef : String
  IsOneLineDef : Bool
  t : RamlType
  deriving DecidableEq, Repr

/-- The loop of `newStructDef`: one `fields[prop.Name] = fd` per property. -/
def buildFields (env : Env) (properties : GoMap PropertyDecl) : GoMap fieldDef :=
  properties.foldl
    (fun fields kv =>
      let prop := ToProperty kv.1 kv.2
      let fd : fieldDef :=
        { Name := env.Title prop.Name, Type_ := env.convertToGoType prop.Type_,
          Required := false, IsComposition := false }
      fields.set prop.Name fd)
    []

/-- The function `newStructDef`. -/
def newStructDef (env : Env) (name packageName description : String)
    (properties : GoMap PropertyDecl) : structDef :=
  { Name := name
    PackageName := packageName
    Fields := buildFields env properties
    Description := env.commentBuilder description
    OneLineDef := ""
    IsOneLineDef := false
    t := RamlType.zero }

/-- The method `buildOneLine`. -/
def buildOneLine (sd : structDef) (tipe : String) : structDef :=
  { sd with IsOneLineDef := true, OneLineDef := "type " ++ sd.Name ++ " " ++ tipe }

/-- The unchecked type assertion `sd.t.Type.(string)`: `none` is the panic. -/
def assertString : RawType → Option String
  | .single s => some s
  | _ => none

/-- The method `addSingleInheritance`. -/
def addSingleInheritance (sd : structDef) (strType : String) : structDef :=
  let fd : fieldDef := { Name := strType, Type_ := "", Required := false, IsComposition := true }
  { sd with Fields := sd.Fields.set strType fd }

/-- The method `addMultipleInheritance`. -/
def addMultipleInheritance (sd : structDef) (strType : String) : structDef :=
  (strings.Split strType ',').foldl
    (fun sd s =>
      let fieldType := strings.TrimSpace s
      let fd : fieldDef :=
        { Name := fieldType, Type_ := "", Required := false, IsComposition := true }
      { sd with Fields := sd.Fields.set fd.Name fd })
    sd

/-- The method `buildEnum`. -/
def buildEnum (env : Env) (sd : structDef) : structDef :=
  match sd.t.Type_ with
  | .single s => buildOneLine sd (env.convertToGoType s)
  | _ => sd

/-- The closure `typeFromSquareBracketProp` of `buildMap`: the converted type
of the first property the `range` loop visits, of the zero `raml.Property`
when there is none. -/
def typeFromSquareBracketProp (env : Env) (sd : structDef) : String :=
  let p : Property :=
    match sd.t.Properties with
    | [] => { Name := "", Type_ := "", Required := false }
    | kv :: _ => ToProperty kv.1 kv.2
  env.convertToGoType p.Type_

/-- The method `buildMap`. -/
def buildMap (env : Env) (sd : structDef) : structDef :=
  if sd.t.AdditionalProperties ≠ "" then
    buildOneLine sd (" map[string]" ++ env.convertToGoType sd.t.AdditionalProperties)
  else if GoMap.len sd.t.Properties = 1 then
    buildOneLine sd (" map[string]" ++ typeFromSquareBracketProp env sd)
  else sd

/-- The method `buildArray`. -/
def buildArray (env : Env) (sd : structDef) : Option structDef :=
  (assertString sd.t.Type_).map (fun s => buildOneLine sd (env.convertToGoType s))

/-- The method `buildUnion`. -/
def buildUnion (env : Env) (sd : structDef) : Option structDef :=
  (assertString sd.t.Type_).map (fun s => buildOneLine sd (env.convertUnion s))

/-- The method `buildSpecialization`. -/
def buildSpecialization (env : Env) (sd : structDef) : Option structDef :=
  (assertString sd.t.Type_).map (fun s => buildOneLine sd (env.convertToGoType s))

/-- The first statement of `handleAdvancedType`: an absent type becomes `"object"`. -/
def defaultType (t : RamlType) : RamlType :=
  match t.Type_ with
  | .absent => { t with Type_ := .single "object" }
  | _ => t

/-- The method `handleAdvancedType`; `none` is a run-time panic. -/
def handleAdvancedType (env : Env) (sd0 : structDef) : Option structDef :=
  let sd : structDef := { sd0 with t := defaultType sd0.t }
  let strType := interfaceToString sd.t.Type_
  if (strings.Split strType ',').length > 1 then some (addMultipleInheritance sd strType)
  else if env.IsUnion sd.t then buildUnion env sd
  else if env.IsArray sd.t then buildArray env sd
  else if env.IsMap sd.t then some (buildMap env sd)
  else if strings.ToLower strType = "object" then some sd
  else if env.IsEnum sd.t then some (buildEnum env sd)
  else if GoMap.len sd.t.Properties = 0 then buildSpecialization env sd
  else some (addSingleInheritance sd strType)

/-- The function `newStructDefFromType`; `none` is a run-time panic. -/
def newStructDefFromType (env : Env) (t : RamlType) (sName packageName description : String) :
    Option structDef :=
  let sd := newStructDef env sName packageName description t.Properties
  handleAdvancedType env { sd with t := t }

/-- The type expression `strType` that `handleAdvancedType` dispatches on. -/
def strTypeOf (t : RamlType) : String := interfaceToString (defaultType t).Type_

/-- The parent names `addMultipleInheritance` visits: the comma-separated
pieces of the type expression, each trimmed. -/
def parentNames (t : RamlType) : List String :=
  (strings.Split (strTypeOf t) ',').map strings.TrimSpace

/-- An environment whose four `raml.Type` predicates are constant, with small
converters, for evaluating the definitions on concrete inputs. -/
def flagEnv (isUnion isArray isMap isEnum : Bool) : Env :=
  { convertToGoType := fun s =>
      if s = "integer" then "int" else if s = "string[]" then "[]string" else s
    convertUnion := fun _ => "interface"
    commentBuilder := fun s => [s]
    Title := String.capitalize
    IsUnion := fun _ => isUnion
    IsArray := fun _ => isArray
    IsMap := fun _ => isMap
    IsEnum := fun _ => isEnum }

/-- The field `newStructDef` builds for the property `k` declared as `v`. -/
def fieldOf (env : Env) (k : String) (v : PropertyDecl) : fieldDef :=
  { Name := env.Title k, Type_ := env.convertToGoType v.Type_,
    Required := false, IsComposition := false }

/-- The field `addSingleInheritance` and `addMultipleInheritance` add for the parent `name`. -/
def compositionField (name : String) : fieldDef :=
  { Name := name, Type_ := "", Required := false, IsComposition := true }

/-! ## Request and response bodies, resources (package `raml`) -/

/-- Modelled from the spec: the JSON descriptor `raml.BodiesProperty` of a
body, which by §3 and §6 carries a property set; the type expression it may
carry is kept beside it. -/
structure BodiesProperty where
  Type_ : String
  Properties : GoMap PropertyDecl
  deriving DecidableEq, Repr

/-- Modelled from the spec: the record `raml.Bodies` of a request or of a
response, restricted to its JSON descriptor. Whether the descriptor is present
is what `commons.HasJSONBody` tells. -/
structure Bodies where
  ApplicationJson : BodiesProperty
  deriving DecidableEq, Repr

/-- The record `raml.Response`, restricted to its body. -/
structure Response where
  Bodies : Bodies
  deriving DecidableEq, Repr

/-- The record `raml.Method`, restricted to the request body and the
responses, a Go map from the status code to the response; the list order is
the order of the `range` loop. -/
structure Method where
  Bodies : Bodies
  Responses : List (Nat × Response)
  deriving DecidableEq, Repr

/-- A pointer `*raml.Resource`: `null`, or a resource with its URI, its seven
optional methods and its nested resources (the values of the Go map
`Nested`, in the order of the `range` loop). -/
inductive Resource where
  | null
  | node (URI : String) (Get Post Head Put Delete Patch Options : Option Method)
      (Nested : List Resource)

/-! ## `commands/struct.go`: body structures and generation -/

/-- Modelled from the spec: the constant `reqBodySuffix`, by §4.4 the suffix `Req`. -/
def reqBodySuffix : String := "Req"

/-- Modelled from the spec: the constant `respBodySuffix`, by §4.4 the suffix `Resp`. -/
def respBodySuffix : String := "Resp"

/-- The variable `structTemplateLocation`. -/
def structTemplateLocation : String := "./templates/struct.tmpl"

/-- The function `newStructDefFromBody`. -/
def newStructDefFromBody (env : Env) (body : Bodies) (structNamePrefix packageName : String)
    (isGenerateRequest : Bool) : structDef :=
  let structName :=
    if isGenerateRequest then structNamePrefix ++ reqBodySuffix
    else structNamePrefix ++ respBodySuffix
  newStructDef env structName packageName "" body.ApplicationJson.Properties

/-- The functions `body.go` and `structDef.generate` call that are declared
elsewhere: the two normalizers and `HasJSONBody` of package `commons`, and
`generateFile` and `runGoFmt`, which act on a world of type `σ` and return an
error of type `ε` or `none` for `nil`. -/
structure WalkEnv (σ ε : Type) where
  NormalizeURITitle : String → String
  NormalizeName : String → String
  HasJSONBody : Bodies → Bool
  generateFile : structDef → String → String → String → Bool → σ → Option ε × σ
  runGoFmt : String → σ → Option ε × σ

/-- The method `structDef.generate`. -/
def structDef.generate {σ ε : Type} (W : WalkEnv σ ε) (sd : structDef) (dir : String) (w : σ) :
    Option ε × σ :=
  let fileName := dir ++ "/" ++ sd.Name ++ ".go"
  match W.generateFile sd structTemplateLocation "struct_template" fileName false w with
  | (some err, w1) => (some err, w1)
  | (none, w1) => W.runGoFmt fileName w1

/-! ## `codegen/golang/body.go` -/

/-- The state of a run of the body walker: the world, and the structures on
which `generate` was called so far, each with what the call returned. -/
structure Run (σ ε : Type) where
  world : σ
  generated : List (structDef × Option ε)

/-- A Go loop `for _, x := range xs` whose body returns from the function
with the first error. -/
def forErr {α S ε : Type} (xs : List α) (body : α → S → Option ε × S) (st : S) : Option ε × S :=
  match xs with
  | [] => (none, st)
  | x :: rest =>
    match body x st with
    | (some err, st1) => (some err, st1)
    | (none, st1) => forErr rest body st1

/-- The function `generateStructFromBody`. -/
def generateStructFromBody {σ ε : Type} (env : Env) (W : WalkEnv σ ε)
    (structNamePrefix dir packageName : String) (body : Bodies) (isGenerateRequest : Bool)
    (st : Run σ ε) : Option ε × Run σ ε :=
  if !W.HasJSONBody body then (none, st)
  else
    let sd := newStructDefFromBody env body structNamePrefix packageName isGenerateRequest
    let res := sd.generate W dir st.world
    (res.1, { world := res.2, generated := st.generated ++ [(sd, res.1)] })

/-- The function `buildBodyFromMethod`. -/
def buildBodyFromMethod {σ ε : Type} (env : Env) (W : WalkEnv σ ε)
    (normalizedPath methodName dir packageName : String) (method : Option Method)
    (st : Run σ ε) : Option ε × Run σ ε :=
  match method with
  | none => (none, st)
  | some m =>
    match generateStructFromBody env W (normalizedPath ++ methodName) dir packageName
        m.Bodies true st with
    | (some err, st1) => (some err, st1)
    | (none, st1) =>
      forErr m.Responses
        (fun val => generateStructFromBody env W (normalizedPath ++ methodName) dir packageName
          val.2.Bodies false)
        st1

/-- The verb names of the table `methods`, in its order. -/
def verbNames : List String := ["Get", "Post", "Head", "Put", "Delete", "Patch", "Options"]

/-- The end of a body-structure name: the verb name and the suffix of the
direction, as characters. -/
def nameTail (verb : String) (isGenerateRequest : Bool) : List Char :=
  verb.data ++ (if isGenerateRequest then reqBodySuffix else respBodySuffix).data

/-- The table `methods` of `generateStructsFromResourceBody`. -/
def methodTable (Get Post Head Put Delete Patch Options : Option Method) :
    List (String × Option Method) :=
  [("Get", Get), ("Post", Post), ("Head", Head), ("Put", Put), ("Delete", Delete),
   ("Patch", Patch), ("Options", Options)]

mutual

/-- The function `generateStructsFromResourceBody`. -/
def generateStructsFromResourceBody {σ ε : Type} (env : Env) (W : WalkEnv σ ε)
    (resourcePath dir packageName : String) (r : Resource) (st : Run σ ε) :
    Option ε × Run σ ε :=
  match r with
  | .null => (none, st)
  | .node URI Get Post Head Put Delete Patch Options Nested =>
    let methods := methodTable Get Post Head Put Delete Patch Options
    let normalizedPath := W.NormalizeName (W.NormalizeURITitle (resourcePath ++ URI))
    match forErr methods
        (fun v => buildBodyFromMethod env W normalizedPath v.1 dir packageName v.2) st with
    | (some err, st1) => (some err, st1)
    | (none, st1) => generateNestedBodies env W (resourcePath ++ URI) dir packageName Nested st1

/-- The loop over `r.Nested` of `generateStructsFromResourceBody`. -/
def generateNestedBodies {σ ε : Type} (env : Env) (W : WalkEnv σ ε)
    (resourcePath dir packageName : String) (nested : List Resource) (st : Run σ ε) :
    Option ε × Run σ ε :=
  match nested with
  | [] => (none, st)
  | v :: rest =>
    match generateStructsFromResourceBody env W resourcePath dir packageName v st with
    | (some err, st1) => (some err, st1)
    | (none, st1) => generateNestedBodies env W resourcePath dir packageName rest st1

end

/-- The function `generateBodyStructs`, on the values of `apiDef.Resources`
in the order of the `range` loop. -/
def generateBodyStructs {σ ε : Type} (env : Env) (W : WalkEnv σ ε) (resources : List Resource)
    (dir packageName : String) (st : Run σ ε) : Option ε × Run σ ε :=
  forErr resources (fun v => generateStructsFromResourceBody env W "" dir packageName v) st

/-! ## The reference behaviour of the body walker, after §4.4 of the spec -/

/-- The structure the spec asks for a body: none when the body has no JSON
payload, else the structure `name` with one field per property of the payload. -/
def referenceOfBody {σ ε : Type} (env : Env) (W : WalkEnv σ ε) (name packageName : String)
    (body : Bodies) : List structDef :=
  if W.HasJSONBody body then [newStructDef env name packageName "" body.ApplicationJson.Properties]
  else []

/-- The structures the spec asks for one verb slot of a resource whose
normalized path is `N`: for a present method, the request structure, then one
response structure for each declared response. -/
def referenceOfMethod {σ ε : Type} (env : Env) (W : WalkEnv σ ε) (N packageName : String)
    (slot : String × Option Method) : List structDef :=
  match slot.2 with
  | none => []
  | some m =>
    referenceOfBody env W (N ++ slot.1 ++ "Req") packageName m.Bodies ++
      m.Responses.flatMap
        (fun val => referenceOfBody env W (N ++ slot.1 ++ "Resp") packageName val.2.Bodies)

mutual

/-- The structures the spec asks for a resource under the ancestor path `a`:
those of its seven verb slots in the fixed order, then those of each nested
resource under the ancestor path `a ++ URI`. -/
def referenceOfResource {σ ε : Type} (env : Env) (W : WalkEnv σ ε) (a packageName : String)
    (r : Resource) : List structDef :=
  match r with
  | .null => []
  | .node URI Get Post Head Put Delete Patch Options Nested =>
    (methodTable Get Post Head Put Delete Patch Options).flatMap
        (referenceOfMethod env W (W.NormalizeName (W.NormalizeURITitle (a ++ URI))) packageName)
      ++ referenceOfNested env W (a ++ URI) packageName Nested

/-- The structures the spec asks for a list of resources under one ancestor path. -/
def referenceOfNested {σ ε : Type} (env : Env) (W : WalkEnv σ ε) (a packageName : String)
    (nested : List Resource) : List structDef :=
  match nested with
  | [] => []
  | v :: rest =>
    referenceOfResource env W a packageName v ++ referenceOfNested env W a packageName rest

end

/-- Error propagation on a piece of the trace: with no error returned, every
call of `generate` in the piece returned `nil`; with the error `e` returned,
the last call of the piece returned `e` and every call before it returned `nil`. -/
def Propagated {ε : Type} (piece : List (structDef × Option ε)) (err : Option ε) : Prop :=
  match err with
  | none => ∀ x ∈ piece, x.2 = none
  | some e => ∃ before sd, piece = before ++ [(sd, some e)] ∧ ∀ x ∈ before, x.2 = none

/-- A step `f` of the walker follows the reference list `l`: the calls of
`generate` it adds to the trace are made on a beginning of `l`, on all of `l`
when it returns no error; errors are propagated; and every recorded outcome
is what `generate` returned. -/
def Follows {σ ε : Type} (W : WalkEnv σ ε) (dir : String)
    (f : Run σ ε → Option ε × Run σ ε) (l : List structDef) : Prop :=
  ∀ st, ∃ piece, (f st).2.generated = st.generated ++ piece ∧
    piece.map Prod.fst <+: l ∧
    ((f st).1 = none → piece.map Prod.fst = l) ∧
    Propagated piece (f st).1 ∧
    (∀ x ∈ piece, ∃ w, x.2 = (x.1.generate W dir w).1)

/-- The name of a body structure: the normalized path, the verb name and the
suffix of the direction, as `buildBodyFromMethod` and `newStructDefFromBody`
join them. -/
def bodyStructName (N verb : String) (isGenerateRequest : Bool) : String :=
  N ++ verb ++ (if isGenerateRequest then reqBodySuffix else respBodySuffix)

/-- The name is a body-structure name of one of the normalized paths `paths`. -/
def NamedUnder (paths : List String) (name : String) : Prop :=
  ∃ N ∈ paths, ∃ verb ∈ verbNames, ∃ d : Bool, name = bodyStructName N verb d

/-- The reference run over a list of structures: `generate` is called on
them one after another from the world `w` and the run stops at the first
error; the result is the error, the world reached and the calls made, each
with what it returned. -/
def referenceRun {σ ε : Type} (W : WalkEnv σ ε) (dir : String) :
    List structDef → σ → Option ε × σ × List (structDef × Option ε)
  | [], w => (none, w, [])
  | sd :: rest, w =>
    match sd.generate W dir w with
    | (some err, w1) => (some err, w1, [(sd, some err)])
    | (none, w1) =>
      ((referenceRun W dir rest w1).1, (referenceRun W dir rest w1).2.1,
        (sd, none) :: (referenceRun W dir rest w1).2.2)

/-- Whether no generation step fails when the structures of the list are
generated one after another from the world `w`. -/
def noStepFails {σ ε : Type} (W : WalkEnv σ ε) (dir : String) : List structDef → σ → Bool
  | [], _ => true
  | sd :: rest, w =>
    (sd.generate W dir w).1.isNone && noStepFails W dir rest (sd.generate W dir w).2

/-- The world reached after the structures of the list are generated one
after another from the world `w`. -/
def worldAfter {σ ε : Type} (W : WalkEnv σ ε) (dir : String) : List structDef → σ → σ
  | [], w => w
  | sd :: rest, w => worldAfter W dir rest (sd.generate W dir w).2

/-- A step `f` of the walker runs the list `l`: from every state it returns
the error and the world of the reference run over `l`, and adds the calls of
that run to the trace. -/
def Runs {σ ε : Type} (W : WalkEnv σ ε) (dir : String)
    (f : Run σ ε → Option ε × Run σ ε) (l : List structDef) : Prop :=
  ∀ st, f st
    = ((referenceRun W dir l st.world).1,
        { world := (referenceRun W dir l st.world).2.1,
          generated := st.generated ++ (referenceRun W dir l st.world).2.2 })

/-- The number of responses of a method slot that have a JSON payload. -/
def jsonResponses {σ ε : Type} (W : WalkEnv σ ε) (method : Option Method) : Nat :=
  match method with
  | none => 0
  | some m => (m.Responses.filter (fun val => W.HasJSONBody val.2.Bodies)).length

mutual

/-- Whether every method of the tree has at most one response with a JSON payload. -/
def singleJSONResponse {σ ε : Type} (W : WalkEnv σ ε) (r : Resource) : Bool :=
  match r with
  | .null => true
  | .node _ Get Post Head Put Delete Patch Options Nested =>
    (methodTable Get Post Head Put Delete Patch Options).all
        (fun slot => decide (jsonResponses W slot.2 ≤ 1))
      && singleJSONResponseList W Nested

/-- Whether every method of every tree of the list has at most one response
with a JSON payload. -/
def singleJSONResponseList {σ ε : Type} (W : WalkEnv σ ε) (nested : List Resource) : Bool :=
  match nested with
  | [] => true
  | v :: rest => singleJSONResponse W v && singleJSONResponseList W rest

end

mutual

/-- The normalized paths of the resources of a tree, in the order of the walk. -/
def normalizedPaths {σ ε : Type} (W : WalkEnv σ ε) (a : String) (r : Resource) : List String :=
  match r with
  | .null => []
  | .node URI _ _ _ _ _ _ _ Nested =>
    W.NormalizeName (W.NormalizeURITitle (a ++ URI)) :: normalizedPathsList W (a ++ URI) Nested

/-- The normalized paths of the resources of a list of trees. -/
def normalizedPathsList {σ ε : Type} (W : WalkEnv σ ε) (a : String) (nested : List Resource) :
    List String :=
  match nested with
  | [] => []
  | v :: rest => normalizedPaths W a v ++ normalizedPathsList W a rest

end

/-! ## `commands/server_resources_gen.go` -/

/-- The files of the output directory: the content of every path that exists. -/
abbrev FileSystem := String → Option String

/-- Modelled from the spec: the record `resourceDef` (§3, ResourceDescription):
the resource name, the server flag and the generated method bindings. -/
structure resourceDef where
  Name : String
  IsServer : Bool
  Methods : List String
  deriving DecidableEq, Repr

/-- The functions `server_resources_gen.go` calls that are declared elsewhere:
the rendering of a template on a resource description and `generateMethods`. -/
structure EmitEnv where
  render : resourceDef → String → String → String
  generateMethods : resourceDef → Resource → String → String → String → resourceDef

/-- Modelled from the spec: `generateFile(data, template, name, path, overwrite)`
writes the rendered content to `path` when `overwrite` is true or `path` is
absent, and leaves `path` untouched otherwise (§4.5, §6); it returns no error. -/
def generateFile (E : EmitEnv) (data : resourceDef) (tmplFile tmplName filename : String)
    (override : Bool) (fs : FileSystem) : Option String × FileSystem :=
  if override || (fs filename).isNone then
    (none, fun path => if path = filename then some (E.render data tmplFile tmplName) else fs path)
  else (none, fs)

/-- The constant `resourceIfTemplate`. -/
def resourceIfTemplate : String := "./templates/server_resources_interface.tmpl"

/-- The constant `resourceAPITemplate`. -/
def resourceAPITemplate : String := "./templates/server_resources_api.tmpl"

/-- The file name of `generateInterfaceFile`. -/
def interfaceFileName (rd : resourceDef) (directory : String) : String :=
  directory ++ "/" ++ strings.ToLower rd.Name ++ "_if.go"

/-- The file name of `generateAPIFile`. -/
def apiFileName (rd : resourceDef) (directory : String) : String :=
  directory ++ "/" ++ strings.ToLower rd.Name ++ "_api.go"

/-- The method `generateInterfaceFile`. -/
def resourceDef.generateInterfaceFile (E : EmitEnv) (rd : resourceDef) (directory : String)
    (fs : FileSystem) : Option String × FileSystem :=
  let filename := interfaceFileName rd directory
  generateFile E rd resourceIfTemplate "resource_if_template" filename true fs

/-- The method `generateAPIFile`. -/
def resourceDef.generateAPIFile (E : EmitEnv) (rd : resourceDef) (directory : String)
    (fs : FileSystem) : Option String × FileSystem :=
  let filename := apiFileName rd directory
  generateFile E rd resourceAPITemplate "resource_api_template" filename false fs

/-- The method `generateGo`: the error, the files, and the receiver after the call. -/
def resourceDef.generateGo (E : EmitEnv) (rd0 : resourceDef) (r : Resource) (URI dir : String)
    (fs : FileSystem) : Option String × FileSystem × resourceDef :=
  let rd := E.generateMethods rd0 r "" URI "go"
  match rd.generateInterfaceFile E dir fs with
  | (some err, fs1) => (some err, fs1, rd)
  | (none, fs1) =>
    let res := rd.generateAPIFile E dir fs1
    (res.1, res.2, rd)

/-! ## Sample declarations -/

/-- The declaration `Mammal: type: Animal, properties: name: string` of the
doc comment of `handleAdvancedType`. -/
def mammal : RamlType :=
  { Type_ := .single "Animal", Properties := [("name", ⟨"string", true⟩)],
    AdditionalProperties := "", Description := "" }

/-- A declaration whose only property is named like its parent type. -/
def mammalShadow : RamlType :=
  { Type_ := .single "Animal", Properties := [("Animal", ⟨"string", true⟩)],
    AdditionalProperties := "", Description := "" }

/-- The declaration `Anggora: type: [ Animal , Cat ], properties: color: string`
of the doc comment of `addMultipleInheritance`, with `Animal` listed twice. -/
def anggora : RamlType :=
  { Type_ := .multiple ["Animal ", " Cat", "Animal"], Properties := [("color", ⟨"string", true⟩)],
    AdditionalProperties := "", Description := "" }

/-- An array declaration that also declares a property. -/
def namesArray : RamlType :=
  { Type_ := .single "string[]", Properties := [("name", ⟨"string", true⟩)],
    AdditionalProperties := "", Description := "" }

/-- A plain object with the properties `name: string` and `age: integer`,
its type left out. -/
def person : RamlType :=
  { Type_ := .absent, Properties := [("name", ⟨"string", true⟩), ("age", ⟨"integer", true⟩)],
    AdditionalProperties := "", Description := "" }

/-- A map declaration with `additionalProperties: string` and one property. -/
def stringMap : RamlType :=
  { Type_ := .single "object", Properties := [("x", ⟨"integer", true⟩)],
    AdditionalProperties := "string", Description := "" }

/-- A union declaration. -/
def petUnion : RamlType :=
  { Type_ := .single "Cat | Dog", Properties := [("name", ⟨"string", true⟩)],
    AdditionalProperties := "string", Description := "" }

/-- A declaration whose type is the list of the single name `Animal`, without properties. -/
def animalList : RamlType :=
  { Type_ := .multiple ["Animal"], Properties := [], AdditionalProperties := "",
    Description := "" }

/-- A specialization: the parent `Animal` and no property. -/
def animalAlias : RamlType :=
  { Type_ := .single "Animal", Properties := [], AdditionalProperties := "", Description := "" }

/-- A body with a JSON payload of the properties `name: string` and `age: integer`. -/
def personBody : Bodies :=
  { ApplicationJson :=
      { Type_ := "Animal[]",
        Properties := [("name", ⟨"string", true⟩), ("age", ⟨"integer", true⟩)] } }

/-- A body without JSON payload. -/
def emptyBody : Bodies := { ApplicationJson := { Type_ := "", Properties := [] } }

/-- A walker environment for evaluating the definitions: the normalizers keep
the letters and digits of a path, a body has a JSON payload when it has a
property, the world counts the files written, and `generateFile` fails on the
structure named `failing`, if any. -/
def sampleWalk (failing : Option String) : WalkEnv Nat String :=
  { NormalizeURITitle := fun s => s
    NormalizeName := fun s => String.mk (s.data.filter Char.isAlphanum)
    HasJSONBody := fun b => !b.ApplicationJson.Properties.isEmpty
    generateFile := fun sd _ _ _ _ w =>
      if failing = some sd.Name then (some ("cannot write " ++ sd.Name), w) else (none, w + 1)
    runGoFmt := fun _ w => (none, w) }

/-- The start of a run: nothing written, nothing generated. -/
def startRun : Run Nat String := { world := 0, generated := [] }

/-- A method with a JSON request body and one JSON response. -/
def jsonMethod : Method :=
  { Bodies := personBody, Responses := [(200, { Bodies := personBody })] }

/-- A method with a JSON request body and two JSON responses. -/
def twoResponses : Method :=
  { Bodies := personBody,
    Responses := [(200, { Bodies := personBody }), (404, { Bodies := personBody })] }

/-- The tree of §8: `/users` with GET and POST, and the nested `/{id}` with GET. -/
def usersTree : Resource :=
  .node "/users" (some jsonMethod) (some jsonMethod) none none none none none
    [.node "/{id}" (some jsonMethod) none none none none none none []]

/-- A resource whose GET method has two JSON responses. -/
def twoResponsesTree : Resource :=
  .node "/users" (some twoResponses) none none none none none none []

/-- An emitter environment for evaluating the definitions. -/
def sampleEmit : EmitEnv :=
  { render := fun rd _ tmplName => tmplName ++ " of " ++ rd.Name
    generateMethods := fun rd _ _ URI _ => { rd with Methods := [URI] } }

/-- The empty output directory. -/
def emptyFS : FileSystem := fun _ => none

/-! ## Lemmas on Go maps -/

namespace GoMap

variable {V : Type}

theorem get_set_self (m : GoMap V) (k : String) (v : V) : (m.set k v).get k = some v := by
  induction m with
  | nil => simp [set, get]
  | cons e rest ih =>
    obtain ⟨k1, v1⟩ := e
    by_cases h : k1 = k
    · simp [set, get, h]
    · simp [set, get, h, ih]

theorem get_set_ne (m : GoMap V) {k k2 : String} (v : V) (h : k2 ≠ k) :
    (m.set k v).get k2 = m.get k2 := by
  induction m with
  | nil => simp [set, get, h.symm]
  | cons e rest ih =>
    obtain ⟨k1, v1⟩ := e
    by_cases h1 : k1 = k
    · subst h1
      simp [set, get, h.symm]
    · by_cases h2 : k1 = k2
      · subst h2
        simp [set, get, h1]
      · simp [set, get, h1, h2, ih]

theorem set_of_not_mem (m : GoMap V) {k : String} (v : V) (h : k ∉ m.keys) :
    m.set k v = m ++ [(k, v)] := by
  induction m with
  | nil => simp [set]
  | cons e rest ih =>
    obtain ⟨k1, v1⟩ := e
    simp only [keys, List.map_cons, List.mem_cons, not_or] at h
    have h1 : k1 ≠ k := fun e => h.1 e.symm
    simp [set, h1, ih (by simpa [keys] using h.2)]

theorem keys_set_of_mem (m : GoMap V) {k : String} (v : V) (h : k ∈ m.keys) :
    (m.set k v).keys = m.keys := by
  induction m with
  | nil => simp [keys] at h
  | cons e rest ih =>
    obtain ⟨k1, v1⟩ := e
    by_cases h1 : k1 = k
    · simp [set, keys, h1]
    · have h2 : k ∈ keys rest := by
        simp only [keys, List.map_cons, List.mem_cons] at h
        rcases h with h | h
        · exact absurd h.symm h1
        · simpa [keys] using h
      have := ih h2
      simp only [keys] at this
      simp [set, keys, h1, this]

theorem mem_keys_set (m : GoMap V) (k k2 : String) (v : V) :
    k2 ∈ (m.set k v).keys ↔ k2 = k ∨ k2 ∈ m.keys := by
  by_cases h : k ∈ m.keys
  · rw [keys_set_of_mem m v h]
    constructor
    · exact Or.inr
    · rintro (rfl | h2)
      · exact h
      · exact h2
  · rw [set_of_not_mem m v h]
    simp [keys, or_comm]

theorem wf_set (m : GoMap V) (k : String) (v : V) (h : m.WF) : (m.set k v).WF := by
  by_cases hk : k ∈ m.keys
  · unfold WF
    rw [keys_set_of_mem m v hk]
    exact h
  · unfold WF
    rw [set_of_not_mem m v hk]
    unfold WF at h
    simp only [keys, List.map_append, List.map_cons, List.map_nil]
    refine List.Nodup.append h (List.nodup_singleton k) ?_
    simpa [List.disjoint_singleton, keys] using hk

theorem len_set (m : GoMap V) (k : String) (v : V) :
    (m.set k v).len = m.len + (if k ∈ m.keys then 0 else 1) := by
  have hlen : ∀ m2 : GoMap V, m2.len = m2.keys.length := by
    intro m2
    simp [len, keys]
  by_cases hk : k ∈ m.keys
  · rw [hlen, keys_set_of_mem m v hk, ← hlen]
    simp [hk]
  · rw [set_of_not_mem m v hk]
    simp [len, hk]

theorem mem_keys_iff_get (m : GoMap V) (k : String) : k ∈ m.keys ↔ ∃ v, m.get k = some v := by
  induction m with
  | nil => simp [keys, get]
  | cons e rest ih =>
    obtain ⟨k1, v1⟩ := e
    by_cases h1 : k1 = k
    · simp [keys, get, h1]
    · have h2 : ¬ k = k1 := fun e => h1 e.symm
      simp only [keys] at ih
      simp [keys, get, h1, h2, ih]

theorem get_of_mem (m : GoMap V) (h : m.WF) {k : String} {v : V} (hm : (k, v) ∈ m) :
    m.get k = some v := by
  induction m with
  | nil => simp at hm
  | cons e rest ih =>
    obtain ⟨k1, v1⟩ := e
    unfold WF at h
    simp only [keys, List.map_cons, List.nodup_cons] at h
    rcases List.mem_cons.mp hm with heq | hmem
    · cases heq
      simp [get]
    · have h1 : k1 ≠ k := by
        rintro rfl
        exact h.1 (List.mem_map.mpr ⟨(k1, v), hmem, rfl⟩)
      simp only [get, h1, if_false]
      exact ih h.2 hmem

theorem mem_of_get (m : GoMap V) {k : String} {v : V} (hg : m.get k = some v) : (k, v) ∈ m := by
  induction m with
  | nil => simp [get] at hg
  | cons e rest ih =>
    obtain ⟨k1, v1⟩ := e
    by_cases h1 : k1 = k
    · simp only [get, h1, if_true, Option.some.injEq] at hg
      simp [h1, hg]
    · simp only [get, h1, if_false] at hg
      exact List.mem_cons_of_mem _ (ih hg)

theorem get_append_of_not_mem (m m2 : GoMap V) {k : String} (h : k ∉ m.keys) :
    get (m ++ m2) k = get m2 k := by
  induction m with
  | nil => rfl
  | cons e rest ih =>
    obtain ⟨k1, v1⟩ := e
    simp only [keys, List.map_cons, List.mem_cons, not_or] at h
    have h1 : k1 ≠ k := fun e => h.1 e.symm
    simp only [List.cons_append, get, h1, if_false]
    exact ih (by simpa [keys] using h.2)

theorem get_map_entries {W : Type} (m : GoMap V) (f : String → V → W) (k : String) :
    get (m.map (fun kv => (kv.1, f kv.1 kv.2))) k = (m.get k).map (f k) := by
  induction m with
  | nil => rfl
  | cons e rest ih =>
    obtain ⟨k1, v1⟩ := e
    by_cases h1 : k1 = k
    · simp [get, h1]
    · simp [get, h1, ih]

end GoMap

/-! ## Lemmas on `strings.Split` and `strings.ToLower` -/

namespace strings

theorem splitChars_length (sep : Char) (l : List Char) :
    (splitChars sep l).length = l.count sep + 1 := by
  induction l with
  | nil => rfl
  | cons c cs ih =>
    by_cases h : c = sep
    · subst h
      simp [splitChars, ih]
    · have hc : (c == sep) = false := by simpa using h
      cases hs : splitChars sep cs with
      | nil => simp [hs] at ih
      | cons w ws =>
        rw [hs] at ih
        simp only [splitChars, h, if_false, hs, List.count_cons, hc, Bool.false_eq_true]
        simpa using ih

theorem Split_length_gt_one_iff (s : String) (sep : Char) :
    (Split s sep).length > 1 ↔ sep ∈ s.data := by
  unfold Split
  rw [List.length_map, splitChars_length, ← List.count_pos_iff]
  omega

theorem Split_singleton_of_not_mem (s : String) (sep : Char) (h : sep ∉ s.data) :
    ¬ (Split s sep).length > 1 := fun hl => h ((Split_length_gt_one_iff s sep).mp hl)

theorem not_comma_mem_of_ToLower_object (s : String) (h : ToLower s = "object") :
    ',' ∉ s.data := by
  intro hm
  have h1 : s.data.map Char.toLower = "object".data := by
    have := congrArg String.data h
    simpa [ToLower] using this
  have h2 : Char.toLower ',' ∈ s.data.map Char.toLower := List.mem_map_of_mem _ hm
  rw [h1] at h2
  revert h2
  decide

end strings

/-! ## Lemmas on the field map of `newStructDef` -/

theorem buildFields_foldl (env : Env) (l : GoMap PropertyDecl) (acc : GoMap fieldDef)
    (hl : l.WF) (hd : ∀ k ∈ l.keys, k ∉ acc.keys) :
    l.foldl (fun fields kv => fields.set kv.1 (fieldOf env kv.1 kv.2)) acc
      = acc ++ l.map (fun kv => (kv.1, fieldOf env kv.1 kv.2)) := by
  induction l generalizing acc with
  | nil => simp
  | cons e rest ih =>
    obtain ⟨k1, v1⟩ := e
    unfold GoMap.WF at hl
    simp only [GoMap.keys, List.map_cons, List.nodup_cons] at hl
    have hk1 : k1 ∉ acc.keys := hd k1 (by simp [GoMap.keys])
    simp only [List.foldl_cons, List.map_cons]
    rw [GoMap.set_of_not_mem acc _ hk1, ih _ hl.2]
    · simp
    · intro k hk hmem
      have hk2 : k ∈ rest.map Prod.fst := hk
      simp only [GoMap.keys, List.map_append, List.map_cons, List.map_nil, List.mem_append,
        List.mem_singleton] at hmem
      rcases hmem with hmem | hmem
      · exact hd k (by simp [GoMap.keys, hk2]) hmem
      · subst hmem
        exact hl.1 hk2

/-- On a well-formed property set, `newStructDef` builds one field per
property, in the order of the visit. -/
theorem buildFields_eq_map (env : Env) (props : GoMap PropertyDecl) (h : props.WF) :
    buildFields env props = props.map (fun kv => (kv.1, fieldOf env kv.1 kv.2)) := by
  have := buildFields_foldl env props [] h (by simp [GoMap.keys])
  simpa [buildFields, ToProperty, fieldOf] using this

theorem buildFields_len (env : Env) (props : GoMap PropertyDecl) (h : props.WF) :
    (buildFields env props).len = props.len := by
  rw [buildFields_eq_map env props h]
  simp [GoMap.len]

theorem buildFields_keys (env : Env) (props : GoMap PropertyDecl) (h : props.WF) :
    (buildFields env props).keys = props.keys := by
  rw [buildFields_eq_map env props h]
  simp [GoMap.keys]

theorem buildFields_get (env : Env) (props : GoMap PropertyDecl) (h : props.WF) (k : String) :
    (buildFields env props).get k = (props.get k).map (fieldOf env k) := by
  rw [buildFields_eq_map env props h]
  exact GoMap.get_map_entries props (fieldOf env) k

theorem buildFields_wf (env : Env) (props : GoMap PropertyDecl) : (buildFields env props).WF := by
  have key : ∀ (l : GoMap PropertyDecl) (acc : GoMap fieldDef), acc.WF →
      (l.foldl (fun fields kv => fields.set kv.1 (fieldOf env kv.1 kv.2)) acc).WF := by
    intro l
    induction l with
    | nil => intro acc h; simpa using h
    | cons e rest ih =>
      intro acc h
      simp only [List.foldl_cons]
      exact ih _ (GoMap.wf_set acc _ _ h)
  have := key props [] (by simp [GoMap.WF, GoMap.keys])
  simpa [buildFields, ToProperty, fieldOf] using this

theorem buildFields_not_composition (env : Env) (props : GoMap PropertyDecl) (k : String)
    (fd : fieldDef) (h : (buildFields env props).get k = some fd) : fd.IsComposition = false := by
  have key : ∀ (l : GoMap PropertyDecl) (acc : GoMap fieldDef),
      (∀ k fd, acc.get k = some fd → fd.IsComposition = false) →
      ∀ k fd, (l.foldl (fun fields kv => fields.set kv.1 (fieldOf env kv.1 kv.2)) acc).get k
        = some fd → fd.IsComposition = false := by
    intro l
    induction l with
    | nil => intro acc h; simpa using h
    | cons e rest ih =>
      intro acc h
      simp only [List.foldl_cons]
      apply ih
      intro k fd hg
      by_cases hk : k = e.1
      · subst hk
        rw [GoMap.get_set_self] at hg
        cases hg
        rfl
      · rw [GoMap.get_set_ne _ _ hk] at hg
        exact h k fd hg
  have := key props [] (by simp [GoMap.get]) k fd
  exact this (by simpa [buildFields, ToProperty, fieldOf] using h)

theorem buildFields_eq_nil_iff (env : Env) (props : GoMap PropertyDecl) :
    buildFields env props = [] ↔ props = [] := by
  have hset : ∀ (m : GoMap fieldDef) (k : String) (v : fieldDef), m.set k v ≠ [] := by
    intro m k v
    cases m with
    | nil => simp [GoMap.set]
    | cons e rest =>
      obtain ⟨k1, v1⟩ := e
      by_cases h : k1 = k <;> simp [GoMap.set, h]
  have key : ∀ (l : GoMap PropertyDecl) (acc : GoMap fieldDef), acc ≠ [] →
      l.foldl (fun fields kv => fields.set kv.1 (fieldOf env kv.1 kv.2)) acc ≠ [] := by
    intro l
    induction l with
    | nil => intro acc h; simpa using h
    | cons e rest ih =>
      intro acc _
      simp only [List.foldl_cons]
      exact ih _ (hset _ _ _)
  constructor
  · intro h
    cases props with
    | nil => rfl
    | cons e rest =>
      exfalso
      have := key rest (GoMap.set [] e.1 (fieldOf env e.1 e.2)) (hset _ _ _)
      apply this
      simpa [buildFields, ToProperty, fieldOf] using h
  · rintro rfl
    rfl

/-! ## Lemmas on the inheritance branches -/

theorem addSingleInheritance_fields (sd : structDef) (strType : String) :
    (addSingleInheritance sd strType).Fields = sd.Fields.set strType (compositionField strType) :=
  rfl

theorem foldl_composition_struct (names : List String) (sd : structDef) :
    names.foldl
        (fun sd s =>
          let n := strings.TrimSpace s
          { sd with Fields := sd.Fields.set n (compositionField n) })
        sd
      = let fields := (names.map strings.TrimSpace).foldl
          (fun f n => f.set n (compositionField n)) sd.Fields
        { sd with Fields := fields } := by
  induction names generalizing sd with
  | nil => rfl
  | cons n rest ih => simp only [List.foldl_cons, List.map_cons, ih]

theorem addMultipleInheritance_eq (sd : structDef) (strType : String) :
    addMultipleInheritance sd strType
      = let fields := ((strings.Split strType ',').map strings.TrimSpace).foldl
          (fun f n => f.set n (compositionField n)) sd.Fields
        { sd with Fields := fields } := by
  have := foldl_composition_struct (strings.Split strType ',') sd
  simpa [addMultipleInheritance, compositionField] using this

theorem get_foldl_composition (names : List String) (f : GoMap fieldDef) (k : String) :
    (names.foldl (fun f n => f.set n (compositionField n)) f).get k
      = if k ∈ names then some (compositionField k) else f.get k := by
  induction names generalizing f with
  | nil => simp
  | cons n rest ih =>
    simp only [List.foldl_cons, ih, List.mem_cons]
    by_cases h1 : k ∈ rest
    · simp [h1]
    · by_cases h2 : k = n
      · subst h2
        simp [h1, GoMap.get_set_self]
      · simp [h1, h2, GoMap.get_set_ne _ _ h2]

theorem wf_foldl_composition (names : List String) (f : GoMap fieldDef) (h : f.WF) :
    (names.foldl (fun f n => f.set n (compositionField n)) f).WF := by
  induction names generalizing f with
  | nil => simpa using h
  | cons n rest ih =>
    simp only [List.foldl_cons]
    exact ih _ (GoMap.wf_set f _ _ h)

/-- In a well-formed field map whose composition fields are exactly the
fields of `names`, there are as many composition entries as distinct names. -/
theorem composition_count (F : GoMap fieldDef) (names : List String) (hwf : F.WF)
    (h : ∀ k fd, (F.get k = some fd ∧ fd.IsComposition = true)
      ↔ (k ∈ names ∧ fd = compositionField k)) :
    (F.filter (fun e => e.2.IsComposition)).length = names.dedup.length := by
  have hnd : ((F.filter (fun e => e.2.IsComposition)).map Prod.fst).Nodup := by
    have hsub : List.Sublist ((F.filter (fun e => e.2.IsComposition)).map Prod.fst)
        (F.map Prod.fst) := List.Sublist.map _ (List.filter_sublist F)
    exact List.Nodup.sublist hsub hwf
  have hperm : List.Perm ((F.filter (fun e => e.2.IsComposition)).map Prod.fst) names.dedup := by
    rw [List.perm_ext_iff_of_nodup hnd (List.nodup_dedup names)]
    intro k
    rw [List.mem_dedup]
    constructor
    · intro hk
      obtain ⟨⟨k1, fd⟩, hmem, rfl⟩ := List.mem_map.mp hk
      rw [List.mem_filter] at hmem
      exact ((h k1 fd).mp ⟨GoMap.get_of_mem F hwf hmem.1, by simpa using hmem.2⟩).1
    · intro hk
      have := (h k (compositionField k)).mpr ⟨hk, rfl⟩
      refine List.mem_map.mpr ⟨(k, compositionField k), ?_, rfl⟩
      rw [List.mem_filter]
      exact ⟨GoMap.mem_of_get F this.1, by simp [compositionField]⟩
  have := hperm.length_eq
  simpa using this

/-! ## The classifier, branch by branch -/

theorem strTypeOf_single (t : RamlType) (s : String) (h : t.Type_ = .single s) :
    strTypeOf t = s ∧ defaultType t = t := by
  simp [strTypeOf, defaultType, h, interfaceToString]

theorem defaultType_Properties (t : RamlType) : (defaultType t).Properties = t.Properties := by
  unfold defaultType
  cases t.Type_ <;> rfl

theorem defaultType_AdditionalProperties (t : RamlType) :
    (defaultType t).AdditionalProperties = t.AdditionalProperties := by
  unfold defaultType
  cases t.Type_ <;> rfl

/-! ## Single inheritance (C1) -/

/-- C1, as stated, fails: `mammalShadow` reaches the single-inheritance branch
with one declared property, named `Animal` like the parent; the result has one
field, not two, and the field built from the property is replaced. -/
theorem single_inheritance_shadow_counterexample :
    ',' ∉ (strTypeOf mammalShadow).data ∧
    strings.ToLower (strTypeOf mammalShadow) ≠ "object" ∧
    mammalShadow.Properties.len = 1 ∧
    ∃ sd, newStructDefFromType (flagEnv false false false false) mammalShadow "Mammal" "main" ""
        = some sd ∧
      sd.Fields.len = 1 ∧
      sd.Fields.len ≠ mammalShadow.Properties.len + 1 ∧
      sd.Fields.get "Animal"
        ≠ (newStructDef (flagEnv false false false false) "Mammal" "main" ""
            mammalShadow.Properties).Fields.get "Animal" := by
  decide

/-- C1, amended: a declared type that reaches the single-inheritance branch
gets the composition field keyed and named by the parent type expression and
flagged `IsComposition`; every other key holds exactly the field built from the
declared property of that name; the map has one entry more than there are
declared properties when no property is named like the parent type expression,
and as many entries as properties otherwise. -/
theorem single_inheritance_fields (env : Env) (t : RamlType)
    (sName packageName description : String)
    (hcomma : ',' ∉ (strTypeOf t).data)
    (hobj : strings.ToLower (strTypeOf t) ≠ "object")
    (hu : env.IsUnion (defaultType t) = false) (ha : env.IsArray (defaultType t) = false)
    (hm : env.IsMap (defaultType t) = false) (he : env.IsEnum (defaultType t) = false)
    (hprops : t.Properties.len ≠ 0) (hwf : t.Properties.WF) :
    ∃ sd, newStructDefFromType env t sName packageName description = some sd ∧
      sd.Fields.get (strTypeOf t)
        = some { Name := strTypeOf t, Type_ := "", Required := false, IsComposition := true } ∧
      (∀ k, k ≠ strTypeOf t →
        sd.Fields.get k
          = (t.Properties.get k).map (fun v =>
              { Name := env.Title k, Type_ := env.convertToGoType v.Type_,
                Required := false, IsComposition := false })) ∧
      sd.Fields.len = t.Properties.len + (if strTypeOf t ∈ t.Properties.keys then 0 else 1) := by
  have hsplit := strings.Split_singleton_of_not_mem _ _ hcomma
  refine ⟨addSingleInheritance
    { newStructDef env sName packageName description t.Properties with t := defaultType t }
    (strTypeOf t), ?_, ?_, ?_, ?_⟩
  · unfold strTypeOf at hsplit hobj
    simp [newStructDefFromType, handleAdvancedType, hsplit, hu, ha, hm, he, hobj,
      defaultType_Properties, hprops, strTypeOf]
  · rw [addSingleInheritance_fields, GoMap.get_set_self]
    rfl
  · intro k hk
    rw [addSingleInheritance_fields, GoMap.get_set_ne _ _ hk]
    exact buildFields_get env t.Properties hwf k
  · rw [addSingleInheritance_fields, GoMap.len_set]
    show (buildFields env t.Properties).len
        + (if strTypeOf t ∈ (buildFields env t.Properties).keys then 0 else 1) = _
    rw [buildFields_len env _ hwf, buildFields_keys env _ hwf]

/-- The amended C1 at `mammal`. -/
theorem single_inheritance_fields_witness :
    ∃ sd, newStructDefFromType (flagEnv false false false false) mammal "Mammal" "main" ""
        = some sd ∧
      sd.Fields.get (strTypeOf mammal)
        = some { Name := strTypeOf mammal, Type_ := "", Required := false,
                 IsComposition := true } ∧
      (∀ k, k ≠ strTypeOf mammal →
        sd.Fields.get k
          = (mammal.Properties.get k).map (fun v =>
              { Name := (flagEnv false false false false).Title k,
                Type_ := (flagEnv false false false false).convertToGoType v.Type_,
                Required := false, IsComposition := false })) ∧
      sd.Fields.len
        = mammal.Properties.len + (if strTypeOf mammal ∈ mammal.Properties.keys then 0 else 1) :=
  single_inheritance_fields (flagEnv false false false false) mammal "Mammal" "main" ""
    (by decide) (by decide) rfl rfl rfl rfl (by decide) (by decide)

/-! ## Multiple inheritance (C2, C3) -/

/-- The result of `newStructDefFromType` on a comma-joined type expression. -/
theorem newStructDefFromType_multiple (env : Env) (t : RamlType)
    (sName packageName description : String) (hcomma : ',' ∈ (strTypeOf t).data) :
    newStructDefFromType env t sName packageName description
      = some (addMultipleInheritance
          { newStructDef env sName packageName description t.Properties with
            t := defaultType t } (strTypeOf t)) := by
  have hsplit := (strings.Split_length_gt_one_iff _ _).mpr hcomma
  unfold strTypeOf at hsplit
  simp [newStructDefFromType, handleAdvancedType, hsplit, strTypeOf]

/-- C2: on a comma-joined type expression, whatever the four flags are, the
fields flagged `IsComposition` are exactly the fields of the distinct trimmed
comma-separated names, each keyed by its name and with `Name` equal to it, one
entry per distinct name; and no one-line alias is set. -/
theorem multiple_inheritance_compositions (env : Env) (t : RamlType)
    (sName packageName description : String) (hcomma : ',' ∈ (strTypeOf t).data) :
    ∃ sd, newStructDefFromType env t sName packageName description = some sd ∧
      sd.IsOneLineDef = false ∧ sd.OneLineDef = "" ∧ sd.Fields.WF ∧
      (∀ k fd, (sd.Fields.get k = some fd ∧ fd.IsComposition = true) ↔
        (k ∈ parentNames t ∧
          fd = { Name := k, Type_ := "", Required := false, IsComposition := true })) ∧
      (sd.Fields.filter (fun e => e.2.IsComposition)).length = (parentNames t).dedup.length := by
  refine ⟨_, newStructDefFromType_multiple env t sName packageName description hcomma, ?_⟩
  rw [addMultipleInheritance_eq]
  have hwf : ((parentNames t).foldl (fun f n => f.set n (compositionField n))
      (buildFields env t.Properties)).WF :=
    wf_foldl_composition _ _ (buildFields_wf env t.Properties)
  have hget : ∀ k fd,
      ((((parentNames t).foldl (fun f n => f.set n (compositionField n))
          (buildFields env t.Properties)).get k = some fd ∧ fd.IsComposition = true) ↔
        (k ∈ parentNames t ∧ fd = compositionField k)) := by
    intro k fd
    rw [get_foldl_composition]
    by_cases hk : k ∈ parentNames t
    · simp only [hk, if_true, true_and, Option.some.injEq]
      constructor
      · rintro ⟨h, _⟩
        exact h.symm
      · rintro rfl
        exact ⟨rfl, rfl⟩
    · simp only [hk, if_false, false_and, iff_false, not_and]
      intro hg
      simp [buildFields_not_composition env t.Properties k fd hg]
  exact ⟨rfl, rfl, hwf, hget, composition_count _ _ hwf hget⟩

/-- C2 at `anggora`, whose type lists `Animal` twice: two composition fields. -/
theorem multiple_inheritance_compositions_witness :
    ',' ∈ (strTypeOf anggora).data ∧ (parentNames anggora).dedup = ["Cat", "Animal"] ∧
    ∃ sd, newStructDefFromType (flagEnv true true true true) anggora "Anggora" "main" ""
        = some sd ∧
      sd.IsOneLineDef = false ∧ sd.OneLineDef = "" ∧ sd.Fields.WF ∧
      (∀ k fd, (sd.Fields.get k = some fd ∧ fd.IsComposition = true) ↔
        (k ∈ parentNames anggora ∧
          fd = { Name := k, Type_ := "", Required := false, IsComposition := true })) ∧
      (sd.Fields.filter (fun e => e.2.IsComposition)).length
        = (parentNames anggora).dedup.length :=
  ⟨by decide, by decide,
    multiple_inheritance_compositions (flagEnv true true true true) anggora "Anggora" "main" ""
      (by decide)⟩

/-- C3, as stated, fails: `anggora` has a comma-joined type expression and the
property `color`; the result keeps the field built from `color`, which is not
flagged `IsComposition`. -/
theorem multiple_inheritance_own_field_counterexample :
    ',' ∈ (strTypeOf anggora).data ∧
    ∃ sd, newStructDefFromType (flagEnv false false false false) anggora "Anggora" "main" ""
        = some sd ∧
      sd.Fields.get "color"
        = some { Name := "Color", Type_ := "string", Required := false, IsComposition := false } ∧
      ¬ (∀ k fd, sd.Fields.get k = some fd → fd.IsComposition = true) := by
  refine ⟨by decide, _, rfl, by decide, ?_⟩
  intro h
  have := h "color" _ rfl
  revert this
  decide

/-- C3, amended: on a comma-joined type expression every entry of the field map
is either the composition field of one of the trimmed names, or the field
`newStructDef` built from a declared property whose name is none of the trimmed
names; every entry is flagged `IsComposition` when no property is declared. -/
theorem multiple_inheritance_entries (env : Env) (t : RamlType)
    (sName packageName description : String) (hcomma : ',' ∈ (strTypeOf t).data) :
    ∃ sd, newStructDefFromType env t sName packageName description = some sd ∧
      (∀ k fd, sd.Fields.get k = some fd →
        (k ∈ parentNames t ∧
            fd = { Name := k, Type_ := "", Required := false, IsComposition := true }) ∨
        (k ∉ parentNames t ∧
            (newStructDef env sName packageName description t.Properties).Fields.get k
              = some fd ∧
            fd.IsComposition = false)) ∧
      (t.Properties = [] → ∀ k fd, sd.Fields.get k = some fd → fd.IsComposition = true) := by
  refine ⟨_, newStructDefFromType_multiple env t sName packageName description hcomma, ?_⟩
  rw [addMultipleInheritance_eq]
  have hmain : ∀ k fd,
      ((parentNames t).foldl (fun f n => f.set n (compositionField n))
          (buildFields env t.Properties)).get k = some fd →
        (k ∈ parentNames t ∧ fd = compositionField k) ∨
        (k ∉ parentNames t ∧ (buildFields env t.Properties).get k = some fd ∧
          fd.IsComposition = false) := by
    intro k fd hg
    rw [get_foldl_composition] at hg
    by_cases hk : k ∈ parentNames t
    · simp only [hk, if_true, Option.some.injEq] at hg
      exact Or.inl ⟨hk, hg.symm⟩
    · simp only [hk, if_false] at hg
      exact Or.inr ⟨hk, hg, buildFields_not_composition env t.Properties k fd hg⟩
  refine ⟨hmain, ?_⟩
  intro hnil k fd hg
  rcases hmain k fd hg with h | h
  · rw [h.2]
    rfl
  · rw [hnil] at h
    simp [buildFields, GoMap.get] at h

/-- The amended C3 at `anggora`. -/
theorem multiple_inheritance_entries_witness :
    ',' ∈ (strTypeOf anggora).data ∧
    ∃ sd, newStructDefFromType (flagEnv false false false false) anggora "Anggora" "main" ""
        = some sd ∧
      (∀ k fd, sd.Fields.get k = some fd →
        (k ∈ parentNames anggora ∧
            fd = { Name := k, Type_ := "", Required := false, IsComposition := true }) ∨
        (k ∉ parentNames anggora ∧
            (newStructDef (flagEnv false false false false) "Anggora" "main" ""
              anggora.Properties).Fields.get k = some fd ∧
            fd.IsComposition = false)) ∧
      (anggora.Properties = [] →
        ∀ k fd, sd.Fields.get k = some fd → fd.IsComposition = true) :=
  ⟨by decide,
    multiple_inheritance_entries (flagEnv false false false false) anggora "Anggora" "main" ""
      (by decide)⟩

/-! ## Plain objects (C4, C5) -/

/-- The result of `newStructDefFromType` on a plain object: the structure of
`newStructDef`, carrying the type with its type expression defaulted. -/
theorem newStructDefFromType_object (env : Env) (t : RamlType)
    (sName packageName description : String)
    (hobj : strings.ToLower (strTypeOf t) = "object")
    (hu : env.IsUnion (defaultType t) = false) (ha : env.IsArray (defaultType t) = false)
    (hm : env.IsMap (defaultType t) = false) :
    newStructDefFromType env t sName packageName description
      = some { newStructDef env sName packageName description t.Properties with
               t := defaultType t } := by
  have hsplit := strings.Split_singleton_of_not_mem _ _
    (strings.not_comma_mem_of_ToLower_object _ hobj)
  unfold strTypeOf at hsplit hobj
  simp [newStructDefFromType, handleAdvancedType, hsplit, hu, ha, hm, hobj]

/-- C4: a type whose type expression is absent or case-insensitively `object`,
not flagged union, array or map, yields a field-bearing structure: one entry
per declared property, keyed by the property name, with the title-cased name
and the converted type; no composition field and no one-line alias. -/
theorem plain_object_fields (env : Env) (t : RamlType)
    (sName packageName description : String)
    (hobj : t.Type_ = .absent ∨ strings.ToLower (interfaceToString t.Type_) = "object")
    (hu : env.IsUnion (defaultType t) = false) (ha : env.IsArray (defaultType t) = false)
    (hm : env.IsMap (defaultType t) = false) (hwf : t.Properties.WF) :
    ∃ sd, newStructDefFromType env t sName packageName description = some sd ∧
      sd.Fields.len = t.Properties.len ∧
      sd.Fields.keys = t.Properties.keys ∧
      (∀ k, sd.Fields.get k
          = (t.Properties.get k).map (fun v =>
              { Name := env.Title k, Type_ := env.convertToGoType v.Type_,
                Required := false, IsComposition := false })) ∧
      (∀ k fd, sd.Fields.get k = some fd → fd.IsComposition = false) ∧
      sd.IsOneLineDef = false ∧ sd.OneLineDef = "" := by
  have hobj2 : strings.ToLower (strTypeOf t) = "object" := by
    rcases hobj with h | h
    · simp only [strTypeOf, defaultType, h, interfaceToString]
      decide
    · have hne : t.Type_ ≠ .absent := by
        intro h0
        rw [h0] at h
        revert h
        decide
      have : defaultType t = t := by
        unfold defaultType
        cases hT : t.Type_ with
        | absent => exact absurd hT hne
        | single _ => rfl
        | multiple _ => rfl
      rw [strTypeOf, this]
      exact h
  refine ⟨_, newStructDefFromType_object env t sName packageName description hobj2 hu ha hm, ?_⟩
  refine ⟨buildFields_len env _ hwf, buildFields_keys env _ hwf, ?_, ?_, rfl, rfl⟩
  · intro k
    exact buildFields_get env t.Properties hwf k
  · intro k fd hg
    exact buildFields_not_composition env t.Properties k fd hg

/-- C4 at `person`, the properties `name: string` and `age: integer`: exactly two fields. -/
theorem plain_object_fields_witness :
    person.Properties.len = 2 ∧
    ∃ sd, newStructDefFromType (flagEnv false false false false) person "Person" "main" ""
        = some sd ∧
      sd.Fields.len = person.Properties.len ∧
      sd.Fields.keys = person.Properties.keys ∧
      (∀ k, sd.Fields.get k
          = (person.Properties.get k).map (fun v =>
              { Name := (flagEnv false false false false).Title k,
                Type_ := (flagEnv false false false false).convertToGoType v.Type_,
                Required := false, IsComposition := false })) ∧
      (∀ k fd, sd.Fields.get k = some fd → fd.IsComposition = false) ∧
      sd.IsOneLineDef = false ∧ sd.OneLineDef = "" :=
  ⟨by decide,
    plain_object_fields (flagEnv false false false false) person "Person" "main" ""
      (Or.inl rfl) rfl rfl rfl (by decide)⟩

/-- C5: a type whose type expression is case-insensitively `object` (or absent)
and that is flagged enum, but not union, array or map, is resolved as a plain
object: no one-line alias, and the field map is the one built from the
properties. -/
theorem object_before_enum (env : Env) (t : RamlType)
    (sName packageName description : String)
    (hobj : strings.ToLower (strTypeOf t) = "object")
    (hu : env.IsUnion (defaultType t) = false) (ha : env.IsArray (defaultType t) = false)
    (hm : env.IsMap (defaultType t) = false) (_he : env.IsEnum (defaultType t) = true) :
    ∃ sd, newStructDefFromType env t sName packageName description = some sd ∧
      sd.IsOneLineDef = false ∧ sd.OneLineDef = "" ∧
      sd.Fields = (newStructDef env sName packageName description t.Properties).Fields :=
  ⟨_, newStructDefFromType_object env t sName packageName description hobj hu ha hm,
    rfl, rfl, rfl⟩

/-- C5 at a declaration typed `Object` and flagged enum, on which `buildEnum`
would have set an alias. -/
theorem object_before_enum_witness :
    strings.ToLower (strTypeOf { person with Type_ := .single "Object" }) = "object" ∧
    buildEnum (flagEnv false false false true)
        { newStructDef (flagEnv false false false true) "Person" "main" "" person.Properties with
          t := { person with Type_ := .single "Object" } }
      ≠ { newStructDef (flagEnv false false false true) "Person" "main" "" person.Properties with
          t := { person with Type_ := .single "Object" } } ∧
    ∃ sd, newStructDefFromType (flagEnv false false false true)
        { person with Type_ := .single "Object" } "Person" "main" "" = some sd ∧
      sd.IsOneLineDef = false ∧ sd.OneLineDef = "" ∧
      sd.Fields = (newStructDef (flagEnv false false false true) "Person" "main" ""
        person.Properties).Fields :=
  ⟨by decide, by decide,
    object_before_enum (flagEnv false false false true) { person with Type_ := .single "Object" }
      "Person" "main" "" (by decide) rfl rfl rfl rfl⟩

/-! ## One-line aliases: union, array, map (C6 to C10) -/

/-- C6: a type whose type expression is a single string without a comma and
that is flagged union gets the union alias, whatever its other flags, its
additional properties and its property set are. -/
theorem union_first (env : Env) (t : RamlType) (s sName packageName description : String)
    (hs : t.Type_ = .single s) (hcomma : ',' ∉ s.data) (hu : env.IsUnion t = true) :
    ∃ sd, newStructDefFromType env t sName packageName description = some sd ∧
      sd.Name = sName ∧ sd.IsOneLineDef = true ∧
      sd.OneLineDef = "type " ++ sName ++ " " ++ env.convertUnion s := by
  obtain ⟨_, hdef⟩ := strTypeOf_single t s hs
  have hsplit : ¬ (strings.Split (interfaceToString (RawType.single s)) ',').length > 1 :=
    strings.Split_singleton_of_not_mem _ _ hcomma
  refine ⟨buildOneLine
    { newStructDef env sName packageName description t.Properties with t := t }
    (env.convertUnion s), ?_, rfl, rfl, rfl⟩
  simp [newStructDefFromType, handleAdvancedType, hdef, hsplit, hu, buildUnion, hs, assertString]

/-- C6 at `petUnion`, flagged union, array, map and enum at once. -/
theorem union_first_witness :
    ∃ sd, newStructDefFromType (flagEnv true true true true) petUnion "Pet" "main" "" = some sd ∧
      sd.Name = "Pet" ∧ sd.IsOneLineDef = true ∧
      sd.OneLineDef
        = "type " ++ "Pet" ++ " " ++ (flagEnv true true true true).convertUnion "Cat | Dog" :=
  union_first (flagEnv true true true true) petUnion "Cat | Dog" "Pet" "main" ""
    rfl (by decide) rfl

/-- C9: an array-typed declaration whose type expression is a single string
without a comma, not flagged union, gets the one-line alias of the converted
type expression. -/
theorem array_alias (env : Env) (t : RamlType) (s sName packageName description : String)
    (hs : t.Type_ = .single s) (hcomma : ',' ∉ s.data) (hu : env.IsUnion t = false)
    (ha : env.IsArray t = true) :
    ∃ sd, newStructDefFromType env t sName packageName description = some sd ∧
      sd.Name = sName ∧ sd.IsOneLineDef = true ∧
      sd.OneLineDef = "type " ++ sName ++ " " ++ env.convertToGoType s := by
  obtain ⟨_, hdef⟩ := strTypeOf_single t s hs
  have hsplit : ¬ (strings.Split (interfaceToString (RawType.single s)) ',').length > 1 :=
    strings.Split_singleton_of_not_mem _ _ hcomma
  refine ⟨buildOneLine
    { newStructDef env sName packageName description t.Properties with t := t }
    (env.convertToGoType s), ?_, rfl, rfl, rfl⟩
  simp [newStructDefFromType, handleAdvancedType, hdef, hsplit, hu, ha, buildArray, hs,
    assertString]

/-- C9 at `namesArray`: the alias `type Names []string`. -/
theorem array_alias_witness :
    (flagEnv false true true true).convertToGoType "string[]" = "[]string" ∧
    ∃ sd, newStructDefFromType (flagEnv false true true true) namesArray "Names" "main" ""
        = some sd ∧
      sd.Name = "Names" ∧ sd.IsOneLineDef = true ∧
      sd.OneLineDef
        = "type " ++ "Names" ++ " " ++ (flagEnv false true true true).convertToGoType "string[]" :=
  ⟨by decide,
    array_alias (flagEnv false true true true) namesArray "string[]" "Names" "main" ""
      rfl (by decide) rfl rfl⟩

/-- The result of `newStructDefFromType` on a type classified as a map. -/
theorem newStructDefFromType_map (env : Env) (t : RamlType)
    (sName packageName description : String) (hcomma : ',' ∉ (strTypeOf t).data)
    (hu : env.IsUnion (defaultType t) = false) (ha : env.IsArray (defaultType t) = false)
    (hm : env.IsMap (defaultType t) = true) :
    newStructDefFromType env t sName packageName description
      = some (buildMap env
          { newStructDef env sName packageName description t.Properties with
            t := defaultType t }) := by
  have hsplit := strings.Split_singleton_of_not_mem _ _ hcomma
  unfold strTypeOf at hsplit
  simp [newStructDefFromType, handleAdvancedType, hsplit, hu, ha, hm]

/-- C7: for a type classified as a map, a non-empty `additionalProperties`
gives the alias over its converted type, also when the type has exactly one
property; otherwise a property set of exactly one entry gives the alias over
the converted type of that property. `IsOneLineDef` is true in both cases. -/
theorem map_value_type (env : Env) (t : RamlType)
    (sName packageName description : String) (hcomma : ',' ∉ (strTypeOf t).data)
    (hu : env.IsUnion (defaultType t) = false) (ha : env.IsArray (defaultType t) = false)
    (hm : env.IsMap (defaultType t) = true) :
    ∃ sd, newStructDefFromType env t sName packageName description = some sd ∧
      sd.Name = sName ∧
      (t.AdditionalProperties ≠ "" →
        sd.IsOneLineDef = true ∧
        sd.OneLineDef = "type " ++ sName ++ " "
          ++ (" map[string]" ++ env.convertToGoType t.AdditionalProperties)) ∧
      (t.AdditionalProperties = "" → ∀ k v, t.Properties = [(k, v)] →
        sd.IsOneLineDef = true ∧
        sd.OneLineDef = "type " ++ sName ++ " "
          ++ (" map[string]" ++ env.convertToGoType v.Type_)) := by
  refine ⟨_, newStructDefFromType_map env t sName packageName description hcomma hu ha hm, ?_⟩
  refine ⟨?_, ?_, ?_⟩
  · unfold buildMap
    simp only [defaultType_AdditionalProperties, defaultType_Properties]
    split
    · rfl
    · split <;> rfl
  · intro hap
    unfold buildMap
    simp only [defaultType_AdditionalProperties, defaultType_Properties, ne_eq, hap,
      not_false_eq_true, if_true]
    exact ⟨rfl, rfl⟩
  · intro hap k v hprops
    unfold buildMap
    simp only [defaultType_AdditionalProperties, defaultType_Properties, ne_eq, hap,
      not_true_eq_false, if_false, hprops, GoMap.len, List.length_singleton, if_true]
    refine ⟨rfl, ?_⟩
    simp [buildOneLine, typeFromSquareBracketProp, defaultType_Properties, hprops, ToProperty,
      newStructDef]

/-- C7 at `stringMap`, which has `additionalProperties: string` and one
property of type `integer`: the alias is over `string`. -/
theorem map_value_type_witness :
    stringMap.AdditionalProperties ≠ "" ∧ stringMap.Properties.len = 1 ∧
    ∃ sd, newStructDefFromType (flagEnv false false true false) stringMap "Tags" "main" ""
        = some sd ∧
      sd.Name = "Tags" ∧
      (stringMap.AdditionalProperties ≠ "" →
        sd.IsOneLineDef = true ∧
        sd.OneLineDef = "type " ++ "Tags" ++ " "
          ++ (" map[string]"
            ++ (flagEnv false false true false).convertToGoType stringMap.AdditionalProperties)) ∧
      (stringMap.AdditionalProperties = "" → ∀ k v, stringMap.Properties = [(k, v)] →
        sd.IsOneLineDef = true ∧
        sd.OneLineDef = "type " ++ "Tags" ++ " "
          ++ (" map[string]" ++ (flagEnv false false true false).convertToGoType v.Type_)) :=
  ⟨by decide, by decide,
    map_value_type (flagEnv false false true false) stringMap "Tags" "main" ""
      (by decide) rfl rfl rfl⟩

/-- C8: a type classified as a map, with no `additionalProperties` and a
property set that does not have exactly one entry, is completed without a
panic and without an alias: the result is the structure of `newStructDef`,
carrying the type with its type expression defaulted. -/
theorem map_degenerate (env : Env) (t : RamlType)
    (sName packageName description : String) (hcomma : ',' ∉ (strTypeOf t).data)
    (hu : env.IsUnion (defaultType t) = false) (ha : env.IsArray (defaultType t) = false)
    (hm : env.IsMap (defaultType t) = true)
    (hap : t.AdditionalProperties = "") (hlen : t.Properties.len ≠ 1) :
    ∃ sd, newStructDefFromType env t sName packageName description = some sd ∧
      sd.IsOneLineDef = false ∧ sd.OneLineDef = "" ∧
      sd = { newStructDef env sName packageName description t.Properties with
             t := defaultType t } := by
  refine ⟨_, newStructDefFromType_map env t sName packageName description hcomma hu ha hm, ?_⟩
  have hb : buildMap env
      { newStructDef env sName packageName description t.Properties with t := defaultType t }
      = { newStructDef env sName packageName description t.Properties with
          t := defaultType t } := by
    unfold buildMap
    simp only [defaultType_AdditionalProperties, defaultType_Properties, ne_eq, hap,
      not_true_eq_false, if_false, hlen]
  rw [hb]
  exact ⟨rfl, rfl, rfl⟩

/-- C8 at `person`, which has two properties and no `additionalProperties`, flagged map. -/
theorem map_degenerate_witness :
    person.Properties.len = 2 ∧
    ∃ sd, newStructDefFromType (flagEnv false false true false) person "Person" "main" ""
        = some sd ∧
      sd.IsOneLineDef = false ∧ sd.OneLineDef = "" ∧
      sd = { newStructDef (flagEnv false false true false) "Person" "main" ""
               person.Properties with
             t := defaultType person } :=
  ⟨by decide,
    map_degenerate (flagEnv false false true false) person "Person" "main" ""
      (by decide) rfl rfl rfl rfl (by decide)⟩

/-- C10, as stated, fails: `namesArray` is an array-typed declaration with one
property; its structure is a one-line alias and its field map holds the field
built from that property. -/
theorem array_fields_counterexample :
    ∃ sd, newStructDefFromType (flagEnv false true false false) namesArray "Names" "main" ""
        = some sd ∧
      sd.IsOneLineDef = true ∧
      sd.Fields
        = [("name", { Name := "Name", Type_ := "string", Required := false,
                      IsComposition := false })] ∧
      sd.Fields ≠ [] := by
  decide

/-- C10, amended: the structure of an array-typed declaration is a one-line
alias whose field map is the one `newStructDef` built from the declared
properties; it is empty exactly when the type declares no property. -/
theorem array_fields (env : Env) (t : RamlType) (s sName packageName description : String)
    (hs : t.Type_ = .single s) (hcomma : ',' ∉ s.data) (hu : env.IsUnion t = false)
    (ha : env.IsArray t = true) :
    ∃ sd, newStructDefFromType env t sName packageName description = some sd ∧
      sd.IsOneLineDef = true ∧
      sd.Fields = (newStructDef env sName packageName description t.Properties).Fields ∧
      (sd.Fields = [] ↔ t.Properties = []) := by
  obtain ⟨_, hdef⟩ := strTypeOf_single t s hs
  have hsplit : ¬ (strings.Split (interfaceToString (RawType.single s)) ',').length > 1 :=
    strings.Split_singleton_of_not_mem _ _ hcomma
  refine ⟨buildOneLine
    { newStructDef env sName packageName description t.Properties with t := t }
    (env.convertToGoType s), ?_, rfl, rfl, ?_⟩
  · simp [newStructDefFromType, handleAdvancedType, hdef, hsplit, hu, ha, buildArray, hs,
      assertString]
  · exact buildFields_eq_nil_iff env t.Properties

/-- The amended C10 at an array declaration without properties: no field. -/
theorem array_fields_witness :
    ∃ sd, newStructDefFromType (flagEnv false true false false)
        { namesArray with Properties := [] } "Names" "main" "" = some sd ∧
      sd.IsOneLineDef = true ∧
      sd.Fields = (newStructDef (flagEnv false true false false) "Names" "main" ""
        ({ namesArray with Properties := [] } : RamlType).Properties).Fields ∧
      (sd.Fields = [] ↔ ({ namesArray with Properties := [] } : RamlType).Properties = []) :=
  array_fields (flagEnv false true false false) { namesArray with Properties := [] }
    "string[]" "Names" "main" "" rfl (by decide) rfl rfl

/-! ## Specialization and enum (C11, C12) -/

/-- C11: a type without declared properties whose type expression is a single
string without a comma, not case-insensitively `object`, and that is not
union, array, map or enum, gets the one-line alias of the converted parent
type; no composition field is added, the field map is empty. -/
theorem specialization_alias (env : Env) (t : RamlType) (s sName packageName description : String)
    (hs : t.Type_ = .single s) (hcomma : ',' ∉ s.data)
    (hobj : strings.ToLower s ≠ "object")
    (hu : env.IsUnion t = false) (ha : env.IsArray t = false) (hm : env.IsMap t = false)
    (he : env.IsEnum t = false) (hprops : t.Properties.len = 0) :
    ∃ sd, newStructDefFromType env t sName packageName description = some sd ∧
      sd.Name = sName ∧ sd.IsOneLineDef = true ∧
      sd.OneLineDef = "type " ++ sName ++ " " ++ env.convertToGoType s ∧
      sd.Fields = [] ∧ sd.Fields.get s = none := by
  obtain ⟨_, hdef⟩ := strTypeOf_single t s hs
  have hsplit : ¬ (strings.Split (interfaceToString (RawType.single s)) ',').length > 1 :=
    strings.Split_singleton_of_not_mem _ _ hcomma
  have hobj2 : ¬ strings.ToLower (interfaceToString (RawType.single s)) = "object" := hobj
  have hnil : t.Properties = [] := List.length_eq_zero.mp hprops
  refine ⟨buildOneLine
    { newStructDef env sName packageName description t.Properties with t := t }
    (env.convertToGoType s), ?_, rfl, rfl, rfl, ?_, ?_⟩
  · simp [newStructDefFromType, handleAdvancedType, hdef, hsplit, hu, ha, hm, he, hobj2, hprops,
      buildSpecialization, hs, assertString]
  · show buildFields env t.Properties = []
    rw [hnil]
    rfl
  · show (buildFields env t.Properties).get s = none
    rw [hnil]
    rfl

/-- C11 at `animalAlias`: the alias `type Pet Animal`, and no field. -/
theorem specialization_alias_witness :
    ∃ sd, newStructDefFromType (flagEnv false false false false) animalAlias "Pet" "main" ""
        = some sd ∧
      sd.Name = "Pet" ∧ sd.IsOneLineDef = true ∧
      sd.OneLineDef
        = "type " ++ "Pet" ++ " " ++ (flagEnv false false false false).convertToGoType "Animal" ∧
      sd.Fields = [] ∧ sd.Fields.get "Animal" = none :=
  specialization_alias (flagEnv false false false false) animalAlias "Animal" "Pet" "main" ""
    rfl (by decide) (by decide) rfl rfl rfl rfl rfl

theorem buildEnum_single (env : Env) (sd : structDef) (s : String)
    (h : sd.t.Type_ = .single s) : buildEnum env sd = buildOneLine sd (env.convertToGoType s) := by
  simp [buildEnum, h]

theorem buildEnum_multiple (env : Env) (sd : structDef) (names : List String)
    (h : sd.t.Type_ = .multiple names) : buildEnum env sd = sd := by
  simp [buildEnum, h]

/-- The result of `newStructDefFromType` on a type classified as enum. -/
theorem newStructDefFromType_enum (env : Env) (t : RamlType)
    (sName packageName description : String) (hcomma : ',' ∉ (strTypeOf t).data)
    (hobj : strings.ToLower (strTypeOf t) ≠ "object")
    (hu : env.IsUnion (defaultType t) = false) (ha : env.IsArray (defaultType t) = false)
    (hm : env.IsMap (defaultType t) = false) (he : env.IsEnum (defaultType t) = true) :
    newStructDefFromType env t sName packageName description
      = some (buildEnum env
          { newStructDef env sName packageName description t.Properties with
            t := defaultType t }) := by
  have hsplit := strings.Split_singleton_of_not_mem _ _ hcomma
  unfold strTypeOf at hsplit hobj
  simp [newStructDefFromType, handleAdvancedType, hsplit, hu, ha, hm, he, hobj]

/-- C12: for a type classified as enum, a raw type value that is a single
string gives the one-line alias of the converted type expression; a raw type
value that is not a string gives no alias; in both cases the call completes
and the field map is the one built from the properties. -/
theorem enum_alias (env : Env) (t : RamlType)
    (sName packageName description : String) (hcomma : ',' ∉ (strTypeOf t).data)
    (hobj : strings.ToLower (strTypeOf t) ≠ "object")
    (hu : env.IsUnion (defaultType t) = false) (ha : env.IsArray (defaultType t) = false)
    (hm : env.IsMap (defaultType t) = false) (he : env.IsEnum (defaultType t) = true) :
    ∃ sd, newStructDefFromType env t sName packageName description = some sd ∧
      sd.Name = sName ∧
      sd.Fields = (newStructDef env sName packageName description t.Properties).Fields ∧
      (∀ s, t.Type_ = .single s →
        sd.IsOneLineDef = true ∧
        sd.OneLineDef = "type " ++ sName ++ " " ++ env.convertToGoType s) ∧
      (∀ names, t.Type_ = .multiple names → sd.IsOneLineDef = false ∧ sd.OneLineDef = "") := by
  refine ⟨_, newStructDefFromType_enum env t sName packageName description hcomma hobj hu ha hm
    he, ?_⟩
  cases hT : t.Type_ with
  | absent =>
    exfalso
    apply hobj
    simp only [strTypeOf, defaultType, hT, interfaceToString]
    decide
  | single s0 =>
    have hd : (defaultType t).Type_ = .single s0 := by simp [defaultType, hT]
    rw [buildEnum_single env _ s0 hd]
    refine ⟨rfl, rfl, ?_, ?_⟩
    · intro s hs
      cases hs
      exact ⟨rfl, rfl⟩
    · intro names hn
      cases hn
  | multiple ns =>
    have hd : (defaultType t).Type_ = .multiple ns := by simp [defaultType, hT]
    rw [buildEnum_multiple env _ ns hd]
    refine ⟨rfl, rfl, ?_, ?_⟩
    · intro s hs
      cases hs
    · intro names _
      exact ⟨rfl, rfl⟩

/-- C12 at `animalList`, flagged enum, whose raw type value is a list: no alias. -/
theorem enum_alias_witness :
    ∃ sd, newStructDefFromType (flagEnv false false false true) animalList "Pet" "main" ""
        = some sd ∧
      sd.Name = "Pet" ∧
      sd.Fields = (newStructDef (flagEnv false false false true) "Pet" "main" ""
        animalList.Properties).Fields ∧
      (∀ s, animalList.Type_ = .single s →
        sd.IsOneLineDef = true ∧
        sd.OneLineDef
          = "type " ++ "Pet" ++ " " ++ (flagEnv false false false true).convertToGoType s) ∧
      (∀ names, animalList.Type_ = .multiple names →
        sd.IsOneLineDef = false ∧ sd.OneLineDef = "") :=
  enum_alias (flagEnv false false false true) animalList "Pet" "main" ""
    (by decide) (by decide) rfl rfl rfl rfl

/-! ## Unchecked type assertions (C19) -/

/-- C19 fails on the code: `animalList`, whose raw type value is the list of
the one name `Animal`, has the type expression `Animal` and no property; it
reaches `buildSpecialization`, whose unchecked assertion `sd.t.Type.(string)`
panics. The same value reaches `buildUnion` and `buildArray` when the type is
flagged so, while `buildEnum` checks the assertion and returns. -/
theorem list_type_panics :
    strTypeOf animalList = "Animal" ∧
    newStructDefFromType (flagEnv false false false false) animalList "Pet" "main" "" = none ∧
    newStructDefFromType (flagEnv true false false false) animalList "Pet" "main" "" = none ∧
    newStructDefFromType (flagEnv false true false false) animalList "Pet" "main" "" = none ∧
    (newStructDefFromType (flagEnv false false false true) animalList "Pet" "main" "").isSome
      = true := by
  decide

/-! ## The one-line-definition invariant (C18) -/

theorem oneLine_ne_empty (name tipe : String) : "type " ++ name ++ " " ++ tipe ≠ "" := by
  intro h
  have := congrArg String.data h
  simp [String.data_append] at this

theorem defaultType_single (t : RamlType) (h : ∀ names, t.Type_ ≠ .multiple names) :
    ∃ s, (defaultType t).Type_ = .single s := by
  unfold defaultType
  cases hT : t.Type_ with
  | absent => exact ⟨"object", rfl⟩
  | single s => exact ⟨s, by simp [hT]⟩
  | multiple names => exact absurd hT (h names)

/-- What `handleAdvancedType` leaves of the name and of the one-line definition. -/
theorem handleAdvancedType_oneLine (env : Env) (sd0 sd : structDef)
    (h : handleAdvancedType env sd0 = some sd) (h1 : sd0.IsOneLineDef = false)
    (h2 : sd0.OneLineDef = "") :
    sd.Name = sd0.Name ∧
      ((sd.IsOneLineDef = false ∧ sd.OneLineDef = "") ∨
        (sd.IsOneLineDef = true ∧ ∃ tipe, sd.OneLineDef = "type " ++ sd0.Name ++ " " ++ tipe)) := by
  have hone : ∀ (x : structDef) (tipe : String), x.Name = sd0.Name →
      (buildOneLine x tipe).Name = sd0.Name ∧
      (((buildOneLine x tipe).IsOneLineDef = false ∧ (buildOneLine x tipe).OneLineDef = "") ∨
        ((buildOneLine x tipe).IsOneLineDef = true ∧
          ∃ tp, (buildOneLine x tipe).OneLineDef = "type " ++ sd0.Name ++ " " ++ tp)) := by
    intro x tipe hx
    refine ⟨hx, Or.inr ⟨rfl, tipe, ?_⟩⟩
    simp [buildOneLine, hx]
  have hopt : ∀ (x : structDef) (f : String → String), x.Name = sd0.Name →
      (assertString x.t.Type_).map (fun s => buildOneLine x (f s)) = some sd →
      sd.Name = sd0.Name ∧
      ((sd.IsOneLineDef = false ∧ sd.OneLineDef = "") ∨
        (sd.IsOneLineDef = true ∧ ∃ tp, sd.OneLineDef = "type " ++ sd0.Name ++ " " ++ tp)) := by
    intro x f hx hsome
    cases ha : assertString x.t.Type_ with
    | none => simp [ha] at hsome
    | some s0 =>
      simp only [ha, Option.map_some', Option.some.injEq] at hsome
      rw [← hsome]
      exact hone x (f s0) hx
  unfold handleAdvancedType at h
  simp only [] at h
  split at h
  · simp only [Option.some.injEq] at h
    rw [← h, addMultipleInheritance_eq]
    exact ⟨rfl, Or.inl ⟨h1, h2⟩⟩
  · split at h
    · exact hopt { sd0 with t := defaultType sd0.t } env.convertUnion rfl h
    · split at h
      · exact hopt { sd0 with t := defaultType sd0.t } env.convertToGoType rfl h
      · split at h
        · simp only [Option.some.injEq] at h
          rw [← h]
          unfold buildMap
          split
          · exact hone _ _ rfl
          · split
            · exact hone _ _ rfl
            · exact ⟨rfl, Or.inl ⟨h1, h2⟩⟩
        · split at h
          · simp only [Option.some.injEq] at h
            rw [← h]
            exact ⟨rfl, Or.inl ⟨h1, h2⟩⟩
          · split at h
            · simp only [Option.some.injEq] at h
              rw [← h]
              unfold buildEnum
              split
              · exact hone _ _ rfl
              · exact ⟨rfl, Or.inl ⟨h1, h2⟩⟩
            · split at h
              · exact hopt { sd0 with t := defaultType sd0.t } env.convertToGoType rfl h
              · simp only [Option.some.injEq] at h
                rw [← h]
                exact ⟨rfl, Or.inl ⟨h1, h2⟩⟩

/-- With a raw type value that is absent or a string, `handleAdvancedType` does not panic. -/
theorem handleAdvancedType_isSome (env : Env) (sd0 : structDef)
    (h : ∀ names, sd0.t.Type_ ≠ .multiple names) :
    ∃ sd, handleAdvancedType env sd0 = some sd := by
  obtain ⟨s, hs⟩ := defaultType_single sd0.t h
  unfold handleAdvancedType
  simp only [buildUnion, buildArray, buildSpecialization, hs, assertString, Option.map_some']
  split
  · exact ⟨_, rfl⟩
  · split
    · exact ⟨_, rfl⟩
    · split
      · exact ⟨_, rfl⟩
      · split
        · exact ⟨_, rfl⟩
        · split
          · exact ⟨_, rfl⟩
          · split
            · exact ⟨_, rfl⟩
            · split
              · exact ⟨_, rfl⟩
              · exact ⟨_, rfl⟩

/-- C18: the structure `newStructDefFromType` returns has `IsOneLineDef` true
exactly when `OneLineDef` is not empty, and then `OneLineDef` starts with
`type`, the name and a blank; a structure is returned whenever the raw type
value is absent or a string. -/
theorem oneLineDef_invariant (env : Env) (t : RamlType) (sName packageName description : String) :
    (∀ sd, newStructDefFromType env t sName packageName description = some sd →
      (sd.IsOneLineDef = true ↔ sd.OneLineDef ≠ "") ∧
      (sd.IsOneLineDef = true → ∃ tipe, sd.OneLineDef = "type " ++ sd.Name ++ " " ++ tipe)) ∧
    ((∀ names, t.Type_ ≠ .multiple names) →
      ∃ sd, newStructDefFromType env t sName packageName description = some sd) := by
  constructor
  · intro sd h
    obtain ⟨hname, hcase⟩ := handleAdvancedType_oneLine env _ sd h rfl rfl
    rw [hname]
    rcases hcase with ⟨hf, he⟩ | ⟨ht, tipe, he⟩
    · simp [hf, he]
    · refine ⟨?_, fun _ => ⟨tipe, he⟩⟩
      simp only [ht, true_iff]
      rw [he]
      exact oneLine_ne_empty _ _
  · intro h
    exact handleAdvancedType_isSome env _ h

/-! ## Body structures (C20, C13) -/

/-- C20: `newStructDefFromBody` never classifies: it returns the structure
named by the prefix and the suffix of the direction, with one field per
property of the JSON payload, no field flagged `IsComposition` or `Required`,
and no one-line alias, whatever type expression the body carries. -/
theorem body_struct_plain (env : Env) (body : Bodies) (structNamePrefix packageName : String)
    (isGenerateRequest : Bool) (hwf : body.ApplicationJson.Properties.WF) :
    (newStructDefFromBody env body structNamePrefix packageName isGenerateRequest).Name
      = structNamePrefix ++ (if isGenerateRequest then reqBodySuffix else respBodySuffix) ∧
    (newStructDefFromBody env body structNamePrefix packageName isGenerateRequest).Fields.len
      = body.ApplicationJson.Properties.len ∧
    (∀ k,
      (newStructDefFromBody env body structNamePrefix packageName isGenerateRequest).Fields.get k
        = (body.ApplicationJson.Properties.get k).map (fun v =>
            { Name := env.Title k, Type_ := env.convertToGoType v.Type_,
              Required := false, IsComposition := false })) ∧
    (∀ k fd,
      (newStructDefFromBody env body structNamePrefix packageName isGenerateRequest).Fields.get k
        = some fd → fd.IsComposition = false ∧ fd.Required = false) ∧
    (newStructDefFromBody env body structNamePrefix packageName isGenerateRequest).IsOneLineDef
      = false ∧
    (newStructDefFromBody env body structNamePrefix packageName isGenerateRequest).OneLineDef
      = "" := by
  have hget := buildFields_get env body.ApplicationJson.Properties hwf
  refine ⟨?_, buildFields_len env _ hwf, hget, ?_, rfl, rfl⟩
  · cases isGenerateRequest <;> rfl
  · intro k fd hk
    have hk2 : (buildFields env body.ApplicationJson.Properties).get k = some fd := hk
    rw [hget k] at hk2
    cases hp : body.ApplicationJson.Properties.get k with
    | none => simp [hp] at hk2
    | some v =>
      simp only [hp, Option.map_some', Option.some.injEq] at hk2
      rw [← hk2]
      exact ⟨rfl, rfl⟩

/-- C20 at `personBody`, which carries the type expression `Animal[]`: the
response structure `UsersGetResp` with two fields. -/
theorem body_struct_plain_witness :
    personBody.ApplicationJson.Type_ = "Animal[]" ∧
    (newStructDefFromBody (flagEnv true true true true) personBody "UsersGet" "main" false).Name
      = "UsersGetResp" ∧
    (newStructDefFromBody (flagEnv true true true true) personBody "UsersGet" "main"
        false).Fields.len = 2 ∧
    (newStructDefFromBody (flagEnv true true true true) personBody "UsersGet" "main"
        false).IsOneLineDef = false :=
  have h := body_struct_plain (flagEnv true true true true) personBody "UsersGet" "main" false
    (by decide)
  ⟨rfl, h.1, h.2.1, h.2.2.2.2.1⟩

theorem nameTail_suffix (verb1 verb2 : String) (d1 d2 : Bool) (h1 : verb1 ∈ verbNames)
    (h2 : verb2 ∈ verbNames) (h : nameTail verb1 d1 <:+ nameTail verb2 d2) :
    verb1 = verb2 ∧ d1 = d2 := by
  have key : ∀ v1 ∈ verbNames, ∀ v2 ∈ verbNames, ∀ e1 e2 : Bool,
      nameTail v1 e1 <:+ nameTail v2 e2 → v1 = v2 ∧ e1 = e2 := by
    decide
  exact key verb1 h1 verb2 h2 d1 d2 h

theorem newStructDefFromBody_name_data (env : Env) (body : Bodies) (p verb packageName : String)
    (d : Bool) :
    (newStructDefFromBody env body (p ++ verb) packageName d).Name.data
      = p.data ++ nameTail verb d := by
  cases d <;> simp [newStructDefFromBody, newStructDef, nameTail, String.data_append]

/-- C13: the names `newStructDefFromBody` gives to the bodies of two triples
of a normalized path, a verb name of the method table and a direction are
equal only if the triples are equal. -/
theorem body_name_injective (env : Env) (body1 body2 : Bodies)
    (p1 p2 verb1 verb2 packageName1 packageName2 : String) (d1 d2 : Bool)
    (h1 : verb1 ∈ verbNames) (h2 : verb2 ∈ verbNames)
    (h : (newStructDefFromBody env body1 (p1 ++ verb1) packageName1 d1).Name
      = (newStructDefFromBody env body2 (p2 ++ verb2) packageName2 d2).Name) :
    p1 = p2 ∧ verb1 = verb2 ∧ d1 = d2 := by
  have hd := congrArg String.data h
  rw [newStructDefFromBody_name_data, newStructDefFromBody_name_data] at hd
  have hvd : verb1 = verb2 ∧ d1 = d2 := by
    rcases List.append_eq_append_iff.mp hd with ⟨a, _, ha⟩ | ⟨c, _, hc⟩
    · obtain ⟨hv, hdd⟩ := nameTail_suffix verb2 verb1 d2 d1 h2 h1 ⟨a, ha.symm⟩
      exact ⟨hv.symm, hdd.symm⟩
    · exact nameTail_suffix verb1 verb2 d1 d2 h1 h2 ⟨c, hc.symm⟩
  obtain ⟨hv, hdd⟩ := hvd
  subst hv
  subst hdd
  refine ⟨?_, rfl, rfl⟩
  have := List.append_cancel_right hd
  exact String.ext this

/-- C13 at the request of `GET /users`: a triple with the same name is the same triple. -/
theorem body_name_injective_witness :
    (newStructDefFromBody (flagEnv false false false false) personBody ("Users" ++ "Get") "main"
        true).Name = "UsersGetReq" ∧
    ("Users" = "Users" ∧ "Get" = "Get" ∧ true = true) :=
  ⟨rfl,
    body_name_injective (flagEnv false false false false) personBody emptyBody
      "Users" "Users" "Get" "Get" "main" "other" true true (by decide) (by decide) rfl⟩

/-! ## The emission policy of `generateGo` (C17) -/

theorem interfaceFileName_ne_apiFileName (rd : resourceDef) (directory : String) :
    interfaceFileName rd directory ≠ apiFileName rd directory := by
  intro h
  have hd := congrArg String.data h
  simp only [interfaceFileName, apiFileName, String.data_append] at hd
  have := List.append_cancel_left hd
  revert this
  decide

theorem generateFile_error (E : EmitEnv) (data : resourceDef) (tmplFile tmplName filename : String)
    (override : Bool) (fs : FileSystem) :
    (generateFile E data tmplFile tmplName filename override fs).1 = none := by
  unfold generateFile
  split <;> rfl

theorem generateFile_other (E : EmitEnv) (data : resourceDef)
    (tmplFile tmplName filename path : String) (override : Bool) (fs : FileSystem)
    (h : path ≠ filename) :
    (generateFile E data tmplFile tmplName filename override fs).2 path = fs path := by
  unfold generateFile
  split
  · simp [h]
  · rfl

theorem generateFile_overwrite (E : EmitEnv) (data : resourceDef)
    (tmplFile tmplName filename : String) (fs : FileSystem) :
    (generateFile E data tmplFile tmplName filename true fs).2 filename
      = some (E.render data tmplFile tmplName) := by
  simp [generateFile]

theorem generateFile_keep (E : EmitEnv) (data : resourceDef)
    (tmplFile tmplName filename c : String) (fs : FileSystem) (h : fs filename = some c) :
    (generateFile E data tmplFile tmplName filename false fs).2 filename = some c := by
  simp [generateFile, h]

theorem generateFile_present (E : EmitEnv) (data : resourceDef)
    (tmplFile tmplName filename : String) (override : Bool) (fs : FileSystem) :
    (generateFile E data tmplFile tmplName filename override fs).2 filename ≠ none := by
  unfold generateFile
  split
  · simp
  · rename_i h
    simp only [Bool.or_eq_true, Option.isNone_iff_eq_none, not_or] at h
    exact h.2

/-- The files after `generateGo`, in terms of the two calls of `generateFile`. -/
theorem generateGo_files (E : EmitEnv) (rd : resourceDef) (r : Resource) (URI dir : String)
    (fs : FileSystem) :
    (rd.generateGo E r URI dir fs).2.1
      = (generateFile E (E.generateMethods rd r "" URI "go") resourceAPITemplate
          "resource_api_template" (apiFileName (E.generateMethods rd r "" URI "go") dir) false
          (generateFile E (E.generateMethods rd r "" URI "go") resourceIfTemplate
            "resource_if_template" (interfaceFileName (E.generateMethods rd r "" URI "go") dir)
            true fs).2).2 ∧
    (rd.generateGo E r URI dir fs).1 = none := by
  have he := generateFile_error E (E.generateMethods rd r "" URI "go") resourceIfTemplate
    "resource_if_template" (interfaceFileName (E.generateMethods rd r "" URI "go") dir) true fs
  unfold resourceDef.generateGo resourceDef.generateInterfaceFile resourceDef.generateAPIFile
  simp only []
  split
  · rename_i err fs1 heq
    rw [heq] at he
    cases he
  · rename_i fs1 heq
    have hfs : fs1 = (generateFile E (E.generateMethods rd r "" URI "go") resourceIfTemplate
        "resource_if_template" (interfaceFileName (E.generateMethods rd r "" URI "go") dir)
        true fs).2 := by
      rw [heq]
    subst hfs
    exact ⟨rfl, generateFile_error _ _ _ _ _ _ _⟩

/-- C17: with `generateFile` writing when told to overwrite or when the path
is absent, `generateGo` returns no error; it leaves any existing content of the
implementation file as it is, so a second run leaves that file as the first
run left it; and after every run the interface file holds the rendering of the
resource description, the same on each run. -/
theorem generateGo_idempotent (E : EmitEnv) (rd : resourceDef) (r : Resource) (URI dir : String)
    (fs0 : FileSystem) :
    (∀ fs, (rd.generateGo E r URI dir fs).1 = none) ∧
    (∀ fs c, fs (apiFileName (E.generateMethods rd r "" URI "go") dir) = some c →
      (rd.generateGo E r URI dir fs).2.1 (apiFileName (E.generateMethods rd r "" URI "go") dir)
        = some c) ∧
    (rd.generateGo E r URI dir fs0).2.1 (apiFileName (E.generateMethods rd r "" URI "go") dir)
      ≠ none ∧
    (rd.generateGo E r URI dir (rd.generateGo E r URI dir fs0).2.1).2.1
        (apiFileName (E.generateMethods rd r "" URI "go") dir)
      = (rd.generateGo E r URI dir fs0).2.1
        (apiFileName (E.generateMethods rd r "" URI "go") dir) ∧
    (∀ fs, (rd.generateGo E r URI dir fs).2.1
        (interfaceFileName (E.generateMethods rd r "" URI "go") dir)
      = some (E.render (E.generateMethods rd r "" URI "go") resourceIfTemplate
          "resource_if_template")) := by
  have hne := interfaceFileName_ne_apiFileName (E.generateMethods rd r "" URI "go") dir
  have hkeep : ∀ fs c, fs (apiFileName (E.generateMethods rd r "" URI "go") dir) = some c →
      (rd.generateGo E r URI dir fs).2.1 (apiFileName (E.generateMethods rd r "" URI "go") dir)
        = some c := by
    intro fs c hc
    rw [(generateGo_files E rd r URI dir fs).1]
    apply generateFile_keep
    rw [generateFile_other _ _ _ _ _ _ _ _ (Ne.symm hne)]
    exact hc
  have hpresent : (rd.generateGo E r URI dir fs0).2.1
      (apiFileName (E.generateMethods rd r "" URI "go") dir) ≠ none := by
    rw [(generateGo_files E rd r URI dir fs0).1]
    exact generateFile_present _ _ _ _ _ _ _
  refine ⟨fun fs => (generateGo_files E rd r URI dir fs).2, hkeep, hpresent, ?_, ?_⟩
  · cases hc : (rd.generateGo E r URI dir fs0).2.1
        (apiFileName (E.generateMethods rd r "" URI "go") dir) with
    | none => exact absurd hc hpresent
    | some c => exact hkeep _ c hc
  · intro fs
    rw [(generateGo_files E rd r URI dir fs).1, generateFile_other _ _ _ _ _ _ _ _ hne]
    exact generateFile_overwrite _ _ _ _ _ _

/-! ## The body walker follows its reference (C14, C15, C16) -/

theorem propagated_append {ε : Type} (p1 p2 : List (structDef × Option ε)) (err : Option ε)
    (h1 : Propagated p1 none) (h2 : Propagated p2 err) : Propagated (p1 ++ p2) err := by
  cases err with
  | none =>
    intro x hx
    rcases List.mem_append.mp hx with h | h
    · exact h1 x h
    · exact h2 x h
  | some e =>
    obtain ⟨before, sd, hp, hb⟩ := h2
    refine ⟨p1 ++ before, sd, ?_, ?_⟩
    · rw [hp, List.append_assoc]
    · intro x hx
      rcases List.mem_append.mp hx with h | h
      · exact h1 x h
      · exact hb x h

theorem follows_skip {σ ε : Type} (W : WalkEnv σ ε) (dir : String) :
    Follows W dir (fun st => ((none : Option ε), st)) [] := by
  intro st
  refine ⟨[], by simp, by simp, by simp, ?_, by simp⟩
  intro x hx
  simp at hx

theorem follows_seq {σ ε : Type} (W : WalkEnv σ ε) (dir : String)
    (f g : Run σ ε → Option ε × Run σ ε) (l1 l2 : List structDef)
    (hf : Follows W dir f l1) (hg : Follows W dir g l2) :
    Follows W dir
      (fun st =>
        match f st with
        | (some err, st1) => (some err, st1)
        | (none, st1) => g st1)
      (l1 ++ l2) := by
  intro st
  obtain ⟨p1, hgen1, hpre1, hall1, hprop1, hout1⟩ := hf st
  beta_reduce
  cases hfs : f st with
  | mk err st1 =>
    rw [hfs] at hgen1 hall1 hprop1
    cases err with
    | some e =>
      dsimp only
      refine ⟨p1, hgen1, hpre1.trans (List.prefix_append l1 l2), ?_, hprop1, hout1⟩
      intro hnone
      simp at hnone
    | none =>
      dsimp only
      obtain ⟨p2, hgen2, hpre2, hall2, hprop2, hout2⟩ := hg st1
      have hl1 := hall1 rfl
      refine ⟨p1 ++ p2, ?_, ?_, ?_, ?_, ?_⟩
      · rw [hgen2]
        dsimp only at hgen1
        rw [hgen1, List.append_assoc]
      · rw [List.map_append, hl1]
        exact (List.prefix_append_right_inj l1).mpr hpre2
      · intro hnone
        rw [List.map_append, hl1, hall2 hnone]
      · exact propagated_append p1 p2 _ hprop1 hprop2
      · intro x hx
        rcases List.mem_append.mp hx with h | h
        · exact hout1 x h
        · exact hout2 x h

theorem follows_forErr {σ ε α : Type} (W : WalkEnv σ ε) (dir : String) (xs : List α)
    (body : α → Run σ ε → Option ε × Run σ ε) (ref : α → List structDef)
    (h : ∀ x ∈ xs, Follows W dir (body x) (ref x)) :
    Follows W dir (forErr xs body) (xs.flatMap ref) := by
  induction xs with
  | nil => exact follows_skip W dir
  | cons x rest ih =>
    have h1 := h x (List.mem_cons_self x rest)
    have h2 := ih (fun y hy => h y (List.mem_cons_of_mem x hy))
    have := follows_seq W dir (body x) (forErr rest body) (ref x) (rest.flatMap ref) h1 h2
    have heq : forErr (x :: rest) body
        = (fun st =>
          match body x st with
          | (some err, st1) => (some err, st1)
          | (none, st1) => forErr rest body st1) := by
      funext st
      rw [forErr]
      rcases body x st with ⟨_ | e, s⟩ <;> rfl
    rw [List.flatMap_cons, heq]
    exact this

theorem propagated_single {ε : Type} (sd : structDef) (out : Option ε) :
    Propagated [(sd, out)] out := by
  cases out with
  | none =>
    intro x hx
    simp only [List.mem_singleton] at hx
    rw [hx]
  | some e => exact ⟨[], sd, rfl, by simp⟩

theorem follows_generateStructFromBody {σ ε : Type} (env : Env) (W : WalkEnv σ ε)
    (structNamePrefix dir packageName : String) (body : Bodies) (isGenerateRequest : Bool) :
    Follows W dir
      (generateStructFromBody env W structNamePrefix dir packageName body isGenerateRequest)
      (referenceOfBody env W
        (structNamePrefix ++ (if isGenerateRequest then "Req" else "Resp")) packageName body) := by
  intro st
  by_cases hj : W.HasJSONBody body = true
  · refine ⟨[(newStructDefFromBody env body structNamePrefix packageName isGenerateRequest,
        ((newStructDefFromBody env body structNamePrefix packageName
          isGenerateRequest).generate W dir st.world).1)], ?_, ?_, ?_, ?_, ?_⟩
    · simp [generateStructFromBody, hj]
    · have : referenceOfBody env W
          (structNamePrefix ++ (if isGenerateRequest then "Req" else "Resp")) packageName body
          = [newStructDefFromBody env body structNamePrefix packageName isGenerateRequest] := by
        cases isGenerateRequest <;> simp [referenceOfBody, hj, newStructDefFromBody,
          reqBodySuffix, respBodySuffix]
      rw [this]
      exact List.prefix_refl _
    · intro _
      cases isGenerateRequest <;> simp [referenceOfBody, hj, newStructDefFromBody,
        reqBodySuffix, respBodySuffix]
    · have : (generateStructFromBody env W structNamePrefix dir packageName body
          isGenerateRequest st).1
          = ((newStructDefFromBody env body structNamePrefix packageName
            isGenerateRequest).generate W dir st.world).1 := by
        simp [generateStructFromBody, hj]
      rw [this]
      exact propagated_single _ _
    · intro x hx
      simp only [List.mem_singleton] at hx
      rw [hx]
      exact ⟨st.world, rfl⟩
  · have hj2 : W.HasJSONBody body = false := by simpa using hj
    refine ⟨[], ?_, ?_, ?_, ?_, ?_⟩
    · simp [generateStructFromBody, hj2]
    · simp
    · intro _
      simp [referenceOfBody, hj2]
    · have : (generateStructFromBody env W structNamePrefix dir packageName body
          isGenerateRequest st).1 = none := by
        simp [generateStructFromBody, hj2]
      rw [this]
      intro x hx
      simp at hx
    · intro x hx
      simp at hx

theorem follows_buildBodyFromMethod {σ ε : Type} (env : Env) (W : WalkEnv σ ε)
    (normalizedPath dir packageName : String) (slot : String × Option Method) :
    Follows W dir (buildBodyFromMethod env W normalizedPath slot.1 dir packageName slot.2)
      (referenceOfMethod env W normalizedPath packageName slot) := by
  obtain ⟨verb, method⟩ := slot
  cases method with
  | none => exact follows_skip W dir
  | some m =>
    have h1 := follows_generateStructFromBody env W (normalizedPath ++ verb) dir packageName
      m.Bodies true
    have h2 := follows_forErr W dir m.Responses
      (fun val => generateStructFromBody env W (normalizedPath ++ verb) dir packageName
        val.2.Bodies false)
      (fun val => referenceOfBody env W (normalizedPath ++ verb ++ "Resp") packageName
        val.2.Bodies)
      (fun val _ => follows_generateStructFromBody env W (normalizedPath ++ verb) dir
        packageName val.2.Bodies false)
    have := follows_seq W dir _ _ _ _ h1 h2
    have heq : buildBodyFromMethod env W normalizedPath verb dir packageName (some m)
        = (fun st =>
          match generateStructFromBody env W (normalizedPath ++ verb) dir packageName
              m.Bodies true st with
          | (some err, st1) => (some err, st1)
          | (none, st1) =>
            forErr m.Responses
              (fun val => generateStructFromBody env W (normalizedPath ++ verb) dir packageName
                val.2.Bodies false)
              st1) := by
      funext st
      simp only [buildBodyFromMethod]
    show Follows W dir (buildBodyFromMethod env W normalizedPath verb dir packageName (some m)) _
    rw [heq]
    exact this

mutual

theorem follows_resource {σ ε : Type} (env : Env) (W : WalkEnv σ ε) (dir packageName : String)
    (r : Resource) (a : String) :
    Follows W dir (generateStructsFromResourceBody env W a dir packageName r)
      (referenceOfResource env W a packageName r) := by
  cases r with
  | null =>
    have heq : generateStructsFromResourceBody env W a dir packageName Resource.null
        = (fun st => ((none : Option ε), st)) := by
      funext st
      rw [generateStructsFromResourceBody]
    rw [heq, referenceOfResource]
    exact follows_skip W dir
  | node URI Get Post Head Put Delete Patch Options Nested =>
    have h1 := follows_forErr W dir (methodTable Get Post Head Put Delete Patch Options)
      (fun v => buildBodyFromMethod env W (W.NormalizeName (W.NormalizeURITitle (a ++ URI))) v.1
        dir packageName v.2)
      (referenceOfMethod env W (W.NormalizeName (W.NormalizeURITitle (a ++ URI))) packageName)
      (fun v _ => follows_buildBodyFromMethod env W _ dir packageName v)
    have h2 := follows_nested env W dir packageName Nested (a ++ URI)
    have := follows_seq W dir _ _ _ _ h1 h2
    have heq : generateStructsFromResourceBody env W a dir packageName
          (Resource.node URI Get Post Head Put Delete Patch Options Nested)
        = (fun st =>
          match forErr (methodTable Get Post Head Put Delete Patch Options)
              (fun v => buildBodyFromMethod env W
                (W.NormalizeName (W.NormalizeURITitle (a ++ URI))) v.1 dir packageName v.2)
              st with
          | (some err, st1) => (some err, st1)
          | (none, st1) =>
            generateNestedBodies env W (a ++ URI) dir packageName Nested st1) := by
      funext st
      rw [generateStructsFromResourceBody]
    rw [heq, referenceOfResource]
    exact this

theorem follows_nested {σ ε : Type} (env : Env) (W : WalkEnv σ ε) (dir packageName : String)
    (nested : List Resource) (a : String) :
    Follows W dir (generateNestedBodies env W a dir packageName nested)
      (referenceOfNested env W a packageName nested) := by
  cases nested with
  | nil =>
    have heq : generateNestedBodies env W a dir packageName []
        = (fun st => ((none : Option ε), st)) := by
      funext st
      rw [generateNestedBodies]
    rw [heq, referenceOfNested]
    exact follows_skip W dir
  | cons v rest =>
    have h1 := follows_resource env W dir packageName v a
    have h2 := follows_nested env W dir packageName rest a
    have := follows_seq W dir _ _ _ _ h1 h2
    have heq : generateNestedBodies env W a dir packageName (v :: rest)
        = (fun st =>
          match generateStructsFromResourceBody env W a dir packageName v st with
          | (some err, st1) => (some err, st1)
          | (none, st1) => generateNestedBodies env W a dir packageName rest st1) := by
      funext st
      rw [generateNestedBodies]
    rw [heq, referenceOfNested]
    exact this

end

/-! ## The body walker is the reference run (C15, C16) -/

theorem referenceRun_append {σ ε : Type} (W : WalkEnv σ ε) (dir : String)
    (l1 l2 : List structDef) (w : σ) :
    referenceRun W dir (l1 ++ l2) w
      = match referenceRun W dir l1 w with
        | (some err, w1, p1) => (some err, w1, p1)
        | (none, w1, p1) =>
          ((referenceRun W dir l2 w1).1, (referenceRun W dir l2 w1).2.1,
            p1 ++ (referenceRun W dir l2 w1).2.2) := by
  induction l1 generalizing w with
  | nil => simp [referenceRun]
  | cons sd rest ih =>
    simp only [List.cons_append, referenceRun]
    rcases hg : sd.generate W dir w with ⟨_ | e, w1⟩
    · have ih1 := ih w1
      dsimp only
      first
        | rw [ih1]
        | rw [show rest.append l2 = rest ++ l2 from rfl, ih1]
      rcases referenceRun W dir rest w1 with ⟨_ | e2, w2, p2⟩ <;> simp
    · simp

theorem runs_skip {σ ε : Type} (W : WalkEnv σ ε) (dir : String) :
    Runs W dir (fun st => ((none : Option ε), st)) [] := by
  intro st
  simp [referenceRun]

theorem runs_seq {σ ε : Type} (W : WalkEnv σ ε) (dir : String)
    (f g : Run σ ε → Option ε × Run σ ε) (l1 l2 : List structDef)
    (hf : Runs W dir f l1) (hg : Runs W dir g l2) :
    Runs W dir
      (fun st =>
        match f st with
        | (some err, st1) => (some err, st1)
        | (none, st1) => g st1)
      (l1 ++ l2) := by
  intro st
  beta_reduce
  rw [hf st, referenceRun_append]
  rcases referenceRun W dir l1 st.world with ⟨_ | e, w1, p1⟩
  · dsimp only
    rw [hg]
    simp
  · simp

theorem runs_forErr {σ ε α : Type} (W : WalkEnv σ ε) (dir : String) (xs : List α)
    (body : α → Run σ ε → Option ε × Run σ ε) (ref : α → List structDef)
    (h : ∀ x ∈ xs, Runs W dir (body x) (ref x)) :
    Runs W dir (forErr xs body) (xs.flatMap ref) := by
  induction xs with
  | nil => exact runs_skip W dir
  | cons x rest ih =>
    have h1 := h x (List.mem_cons_self x rest)
    have h2 := ih (fun y hy => h y (List.mem_cons_of_mem x hy))
    have := runs_seq W dir (body x) (forErr rest body) (ref x) (rest.flatMap ref) h1 h2
    have heq : forErr (x :: rest) body
        = (fun st =>
          match body x st with
          | (some err, st1) => (some err, st1)
          | (none, st1) => forErr rest body st1) := by
      funext st
      rw [forErr]
      rcases body x st with ⟨_ | e, s⟩ <;> rfl
    rw [List.flatMap_cons, heq]
    exact this

theorem runs_generateStructFromBody {σ ε : Type} (env : Env) (W : WalkEnv σ ε)
    (structNamePrefix dir packageName : String) (body : Bodies) (isGenerateRequest : Bool) :
    Runs W dir
      (generateStructFromBody env W structNamePrefix dir packageName body isGenerateRequest)
      (referenceOfBody env W
        (structNamePrefix ++ (if isGenerateRequest then "Req" else "Resp")) packageName body) := by
  intro st
  by_cases hj : W.HasJSONBody body = true
  · have href : referenceOfBody env W
        (structNamePrefix ++ (if isGenerateRequest then "Req" else "Resp")) packageName body
        = [newStructDefFromBody env body structNamePrefix packageName isGenerateRequest] := by
      cases isGenerateRequest <;> simp [referenceOfBody, hj, newStructDefFromBody,
        reqBodySuffix, respBodySuffix]
    rw [href]
    simp only [generateStructFromBody, hj, Bool.not_true, Bool.false_eq_true, if_false,
      referenceRun]
    rcases (newStructDefFromBody env body structNamePrefix packageName
      isGenerateRequest).generate W dir st.world with ⟨_ | e, w1⟩ <;> rfl
  · have hj2 : W.HasJSONBody body = false := by simpa using hj
    simp [generateStructFromBody, referenceOfBody, hj2, referenceRun]

theorem runs_buildBodyFromMethod {σ ε : Type} (env : Env) (W : WalkEnv σ ε)
    (normalizedPath dir packageName : String) (slot : String × Option Method) :
    Runs W dir (buildBodyFromMethod env W normalizedPath slot.1 dir packageName slot.2)
      (referenceOfMethod env W normalizedPath packageName slot) := by
  obtain ⟨verb, method⟩ := slot
  cases method with
  | none => exact runs_skip W dir
  | some m =>
    have h1 := runs_generateStructFromBody env W (normalizedPath ++ verb) dir packageName
      m.Bodies true
    have h2 := runs_forErr W dir m.Responses
      (fun val => generateStructFromBody env W (normalizedPath ++ verb) dir packageName
        val.2.Bodies false)
      (fun val => referenceOfBody env W (normalizedPath ++ verb ++ "Resp") packageName
        val.2.Bodies)
      (fun val _ => runs_generateStructFromBody env W (normalizedPath ++ verb) dir
        packageName val.2.Bodies false)
    have := runs_seq W dir _ _ _ _ h1 h2
    have heq : buildBodyFromMethod env W normalizedPath verb dir packageName (some m)
        = (fun st =>
          match generateStructFromBody env W (normalizedPath ++ verb) dir packageName
              m.Bodies true st with
          | (some err, st1) => (some err, st1)
          | (none, st1) =>
            forErr m.Responses
              (fun val => generateStructFromBody env W (normalizedPath ++ verb) dir packageName
                val.2.Bodies false)
              st1) := by
      funext st
      simp only [buildBodyFromMethod]
    show Runs W dir (buildBodyFromMethod env W normalizedPath verb dir packageName (some m)) _
    rw [heq]
    exact this

mutual

theorem runs_resource {σ ε : Type} (env : Env) (W : WalkEnv σ ε) (dir packageName : String)
    (r : Resource) (a : String) :
    Runs W dir (generateStructsFromResourceBody env W a dir packageName r)
      (referenceOfResource env W a packageName r) := by
  cases r with
  | null =>
    have heq : generateStructsFromResourceBody env W a dir packageName Resource.null
        = (fun st => ((none : Option ε), st)) := by
      funext st
      rw [generateStructsFromResourceBody]
    rw [heq, referenceOfResource]
    exact runs_skip W dir
  | node URI Get Post Head Put Delete Patch Options Nested =>
    have h1 := runs_forErr W dir (methodTable Get Post Head Put Delete Patch Options)
      (fun v => buildBodyFromMethod env W (W.NormalizeName (W.NormalizeURITitle (a ++ URI))) v.1
        dir packageName v.2)
      (referenceOfMethod env W (W.NormalizeName (W.NormalizeURITitle (a ++ URI))) packageName)
      (fun v _ => runs_buildBodyFromMethod env W _ dir packageName v)
    have h2 := runs_nested env W dir packageName Nested (a ++ URI)
    have := runs_seq W dir _ _ _ _ h1 h2
    have heq : generateStructsFromResourceBody env W a dir packageName
          (Resource.node URI Get Post Head Put Delete Patch Options Nested)
        = (fun st =>
          match forErr (methodTable Get Post Head Put Delete Patch Options)
              (fun v => buildBodyFromMethod env W
                (W.NormalizeName (W.NormalizeURITitle (a ++ URI))) v.1 dir packageName v.2)
              st with
          | (some err, st1) => (some err, st1)
          | (none, st1) =>
            generateNestedBodies env W (a ++ URI) dir packageName Nested st1) := by
      funext st
      rw [generateStructsFromResourceBody]
    rw [heq, referenceOfResource]
    exact this

theorem runs_nested {σ ε : Type} (env : Env) (W : WalkEnv σ ε) (dir packageName : String)
    (nested : List Resource) (a : String) :
    Runs W dir (generateNestedBodies env W a dir packageName nested)
      (referenceOfNested env W a packageName nested) := by
  cases nested with
  | nil =>
    have heq : generateNestedBodies env W a dir packageName []
        = (fun st => ((none : Option ε), st)) := by
      funext st
      rw [generateNestedBodies]
    rw [heq, referenceOfNested]
    exact runs_skip W dir
  | cons v rest =>
    have h1 := runs_resource env W dir packageName v a
    have h2 := runs_nested env W dir packageName rest a
    have := runs_seq W dir _ _ _ _ h1 h2
    have heq : generateNestedBodies env W a dir packageName (v :: rest)
        = (fun st =>
          match generateStructsFromResourceBody env W a dir packageName v st with
          | (some err, st1) => (some err, st1)
          | (none, st1) => generateNestedBodies env W a dir packageName rest st1) := by
      funext st
      rw [generateNestedBodies]
    rw [heq, referenceOfNested]
    exact this

end

theorem runs_generateBodyStructs {σ ε : Type} (env : Env) (W : WalkEnv σ ε)
    (dir packageName : String) (resources : List Resource) :
    Runs W dir (generateBodyStructs env W resources dir packageName)
      (resources.flatMap (referenceOfResource env W "" packageName)) :=
  runs_forErr W dir resources _ _ (fun v _ => runs_resource env W dir packageName v "")

theorem referenceRun_of_noStepFails {σ ε : Type} (W : WalkEnv σ ε) (dir : String)
    (l : List structDef) (w : σ) (h : noStepFails W dir l w = true) :
    referenceRun W dir l w = (none, worldAfter W dir l w, l.map (fun sd => (sd, none))) := by
  induction l generalizing w with
  | nil => rfl
  | cons sd rest ih =>
    simp only [noStepFails, Bool.and_eq_true, Option.isNone_iff_eq_none] at h
    simp only [referenceRun, worldAfter, List.map_cons]
    rcases hg : sd.generate W dir w with ⟨_ | e, w1⟩
    · rw [hg] at h
      dsimp only at h ⊢
      rw [ih w1 h.2]
    · rw [hg] at h
      simp at h

theorem noStepFails_of_referenceRun {σ ε : Type} (W : WalkEnv σ ε) (dir : String)
    (l : List structDef) (w : σ) (h : (referenceRun W dir l w).1 = none) :
    noStepFails W dir l w = true := by
  induction l generalizing w with
  | nil => rfl
  | cons sd rest ih =>
    simp only [noStepFails, Bool.and_eq_true, Option.isNone_iff_eq_none]
    simp only [referenceRun] at h
    rcases hg : sd.generate W dir w with ⟨_ | e, w1⟩
    · rw [hg] at h
      dsimp only at h ⊢
      exact ⟨rfl, ih w1 h⟩
    · rw [hg] at h
      simp at h

theorem referenceRun_first_failure {σ ε : Type} (W : WalkEnv σ ε) (dir : String)
    (before after : List structDef) (sd : structDef) (e : ε) (w : σ)
    (hb : noStepFails W dir before w = true)
    (hf : (sd.generate W dir (worldAfter W dir before w)).1 = some e) :
    referenceRun W dir (before ++ sd :: after) w
      = (some e, (sd.generate W dir (worldAfter W dir before w)).2,
          before.map (fun x => (x, none)) ++ [(sd, some e)]) := by
  rw [referenceRun_append, referenceRun_of_noStepFails W dir before w hb]
  dsimp only
  simp only [referenceRun]
  rcases hg : sd.generate W dir (worldAfter W dir before w) with ⟨_ | e2, w1⟩
  · rw [hg] at hf
    simp at hf
  · rw [hg] at hf
    simp only [Option.some.injEq] at hf
    subst hf
    rfl

/-- C15: when no generation step of the run fails, that is, when generating
the structures of the reference sequence of §4.4 one after another from the
world of the start meets no error, `generateStructsFromResourceBody` returns
no error and generates exactly that sequence: for the verbs of the fixed
order whose method is present, the request structure if the request has a
JSON payload, then one response structure per response with a JSON payload,
followed by the sequences of the nested resources under the ancestor path
extended by the URI; a nil resource contributes nothing. -/
theorem walker_reference {σ ε : Type} (env : Env) (W : WalkEnv σ ε) (dir packageName : String)
    (r : Resource) (a : String) (st : Run σ ε)
    (hok : noStepFails W dir (referenceOfResource env W a packageName r) st.world = true) :
    (generateStructsFromResourceBody env W a dir packageName r st).1 = none ∧
    (generateStructsFromResourceBody env W a dir packageName r st).2.generated
      = st.generated ++ (referenceOfResource env W a packageName r).map (fun sd => (sd, none)) ∧
    (generateStructsFromResourceBody env W a dir packageName r st).2.world
      = worldAfter W dir (referenceOfResource env W a packageName r) st.world ∧
    generateStructsFromResourceBody env W a dir packageName Resource.null st = (none, st) := by
  rw [runs_resource env W dir packageName r a st, referenceRun_of_noStepFails W dir _ _ hok]
  refine ⟨rfl, rfl, rfl, ?_⟩
  rw [generateStructsFromResourceBody]

/-- C15 at the tree of §8, `/users` with GET and POST and the nested `/{id}`
with GET, in an environment where generating a structure named `zzz` would
fail: no step of this run fails, and six structures are generated, in this
order. -/
theorem walker_reference_witness :
    ((newStructDef (flagEnv false false false false) "zzz" "main" "" []).generate
        (sampleWalk (some "zzz")) "out" 0).1 = some "cannot write zzz" ∧
    (referenceOfResource (flagEnv false false false false) (sampleWalk (some "zzz")) "" "main"
        usersTree).map (fun sd => sd.Name)
      = ["usersGetReq", "usersGetResp", "usersPostReq", "usersPostResp", "usersidGetReq",
         "usersidGetResp"] ∧
    (generateStructsFromResourceBody (flagEnv false false false false) (sampleWalk (some "zzz"))
        "" "out" "main" usersTree startRun).1 = none ∧
    (generateStructsFromResourceBody (flagEnv false false false false) (sampleWalk (some "zzz"))
        "" "out" "main" usersTree startRun).2.generated
      = startRun.generated
        ++ (referenceOfResource (flagEnv false false false false) (sampleWalk (some "zzz")) ""
            "main" usersTree).map (fun sd => (sd, none)) ∧
    (generateStructsFromResourceBody (flagEnv false false false false) (sampleWalk (some "zzz"))
        "" "out" "main" usersTree startRun).2.world
      = worldAfter (sampleWalk (some "zzz")) "out"
          (referenceOfResource (flagEnv false false false false) (sampleWalk (some "zzz")) ""
            "main" usersTree) startRun.world ∧
    generateStructsFromResourceBody (flagEnv false false false false) (sampleWalk (some "zzz"))
        "" "out" "main" Resource.null startRun = (none, startRun) :=
  ⟨by decide, by decide,
    walker_reference (flagEnv false false false false) (sampleWalk (some "zzz")) "out" "main"
      usersTree "" startRun (by decide)⟩

/-- C16: on every run of `generateStructsFromResourceBody`, and likewise of
`generateBodyStructs`: if, in the order of the reference sequence, the
structures before `sd` are generated without error and generating `sd` fails
with the error `e`, then the walker returns exactly `e` and its trace ends
with the failing call, so that no structure after `sd` is generated; and if
the walker returns `nil`, then no generation step failed and every structure
of the reference sequence was generated. -/
theorem walker_error_propagation {σ ε : Type} (env : Env) (W : WalkEnv σ ε)
    (dir packageName : String) (r : Resource) (a : String) (resources : List Resource)
    (st : Run σ ε) :
    ((∀ before sd after e,
        referenceOfResource env W a packageName r = before ++ sd :: after →
        noStepFails W dir before st.world = true →
        (sd.generate W dir (worldAfter W dir before st.world)).1 = some e →
        (generateStructsFromResourceBody env W a dir packageName r st).1 = some e ∧
        (generateStructsFromResourceBody env W a dir packageName r st).2.generated
          = st.generated ++ (before.map (fun x => (x, none)) ++ [(sd, some e)])) ∧
      ((generateStructsFromResourceBody env W a dir packageName r st).1 = none →
        noStepFails W dir (referenceOfResource env W a packageName r) st.world = true ∧
        (generateStructsFromResourceBody env W a dir packageName r st).2.generated
          = st.generated
            ++ (referenceOfResource env W a packageName r).map (fun x => (x, none)))) ∧
    ((∀ before sd after e,
        resources.flatMap (referenceOfResource env W "" packageName) = before ++ sd :: after →
        noStepFails W dir before st.world = true →
        (sd.generate W dir (worldAfter W dir before st.world)).1 = some e →
        (generateBodyStructs env W resources dir packageName st).1 = some e ∧
        (generateBodyStructs env W resources dir packageName st).2.generated
          = st.generated ++ (before.map (fun x => (x, none)) ++ [(sd, some e)])) ∧
      ((generateBodyStructs env W resources dir packageName st).1 = none →
        noStepFails W dir (resources.flatMap (referenceOfResource env W "" packageName))
          st.world = true ∧
        (generateBodyStructs env W resources dir packageName st).2.generated
          = st.generated
            ++ (resources.flatMap (referenceOfResource env W "" packageName)).map
              (fun x => (x, none)))) := by
  have key : ∀ (f : Run σ ε → Option ε × Run σ ε) (l : List structDef), Runs W dir f l →
      (∀ before sd after e, l = before ++ sd :: after →
        noStepFails W dir before st.world = true →
        (sd.generate W dir (worldAfter W dir before st.world)).1 = some e →
        (f st).1 = some e ∧
        (f st).2.generated
          = st.generated ++ (before.map (fun x => (x, none)) ++ [(sd, some e)])) ∧
      ((f st).1 = none →
        noStepFails W dir l st.world = true ∧
        (f st).2.generated = st.generated ++ l.map (fun x => (x, none))) := by
    intro f l hruns
    constructor
    · intro before sd after e hl hb hf
      rw [hruns st, hl, referenceRun_first_failure W dir before after sd e st.world hb hf]
      exact ⟨rfl, rfl⟩
    · intro hnone
      rw [hruns st] at hnone
      have hsteps := noStepFails_of_referenceRun W dir l st.world hnone
      refine ⟨hsteps, ?_⟩
      rw [hruns st, referenceRun_of_noStepFails W dir l st.world hsteps]
  exact ⟨key _ _ (runs_resource env W dir packageName r a),
    key _ _ (runs_generateBodyStructs env W dir packageName resources)⟩

/-- C16 at the tree of §8 when generating `usersPostReq` fails: the walker
returns that error, after the two structures of GET and the failing one. -/
theorem walker_error_propagation_witness :
    (generateStructsFromResourceBody (flagEnv false false false false)
        (sampleWalk (some "usersPostReq")) "" "out" "main" usersTree startRun).1
      = some "cannot write usersPostReq" ∧
    (generateStructsFromResourceBody (flagEnv false false false false)
        (sampleWalk (some "usersPostReq")) "" "out" "main" usersTree startRun).2.generated
      = startRun.generated
        ++ ([newStructDefFromBody (flagEnv false false false false) personBody "usersGet" "main"
              true,
             newStructDefFromBody (flagEnv false false false false) personBody "usersGet" "main"
              false].map (fun x => (x, none))
          ++ [(newStructDefFromBody (flagEnv false false false false) personBody "usersPost"
                "main" true, some "cannot write usersPostReq")]) :=
  (walker_error_propagation (flagEnv false false false false) (sampleWalk (some "usersPostReq"))
      "out" "main" usersTree "" [] startRun).1.1
    [newStructDefFromBody (flagEnv false false false false) personBody "usersGet" "main" true,
     newStructDefFromBody (flagEnv false false false false) personBody "usersGet" "main" false]
    (newStructDefFromBody (flagEnv false false false false) personBody "usersPost" "main" true)
    [newStructDefFromBody (flagEnv false false false false) personBody "usersPost" "main" false,
     newStructDefFromBody (flagEnv false false false false) personBody "usersidGet" "main" true,
     newStructDefFromBody (flagEnv false false false false) personBody "usersidGet" "main" false]
    "cannot write usersPostReq" (by decide) (by decide) (by decide)

/-! ## Names of the body structures of a tree (C14) -/

theorem bodyStructName_data (N verb : String) (d : Bool) :
    (bodyStructName N verb d).data = N.data ++ nameTail verb d := by
  cases d <;> simp [bodyStructName, nameTail, String.data_append]

theorem bodyStructName_inj (N1 N2 verb1 verb2 : String) (d1 d2 : Bool)
    (h1 : verb1 ∈ verbNames) (h2 : verb2 ∈ verbNames)
    (h : bodyStructName N1 verb1 d1 = bodyStructName N2 verb2 d2) :
    N1 = N2 ∧ verb1 = verb2 ∧ d1 = d2 := by
  have hd := congrArg String.data h
  rw [bodyStructName_data, bodyStructName_data] at hd
  have hvd : verb1 = verb2 ∧ d1 = d2 := by
    rcases List.append_eq_append_iff.mp hd with ⟨c, _, hc⟩ | ⟨c, _, hc⟩
    · obtain ⟨hv, hdd⟩ := nameTail_suffix verb2 verb1 d2 d1 h2 h1 ⟨c, hc.symm⟩
      exact ⟨hv.symm, hdd.symm⟩
    · exact nameTail_suffix verb1 verb2 d1 d2 h1 h2 ⟨c, hc.symm⟩
  obtain ⟨hv, hdd⟩ := hvd
  subst hv
  subst hdd
  exact ⟨String.ext (List.append_cancel_right hd), rfl, rfl⟩

theorem namedUnder_disjoint (P1 P2 : List String) (X Y : List String)
    (hX : ∀ x ∈ X, NamedUnder P1 x) (hY : ∀ y ∈ Y, NamedUnder P2 y) (hP : P1.Disjoint P2) :
    X.Disjoint Y := by
  intro n hx hy
  obtain ⟨N1, hN1, v1, hv1, d1, e1⟩ := hX n hx
  obtain ⟨N2, hN2, v2, hv2, d2, e2⟩ := hY n hy
  have := bodyStructName_inj N1 N2 v1 v2 d1 d2 hv1 hv2 (e1.symm.trans e2)
  exact hP hN1 (this.1 ▸ hN2)

theorem namedUnder_mono (P1 P2 : List String) (name : String) (h : ∀ N ∈ P1, N ∈ P2)
    (hn : NamedUnder P1 name) : NamedUnder P2 name := by
  obtain ⟨N, hN, rest⟩ := hn
  exact ⟨N, h N hN, rest⟩

theorem referenceOfBody_names {σ ε : Type} (env : Env) (W : WalkEnv σ ε)
    (name packageName : String) (body : Bodies) :
    (referenceOfBody env W name packageName body).map (fun sd => sd.Name)
      = if W.HasJSONBody body then [name] else [] := by
  unfold referenceOfBody
  split <;> simp [newStructDef]

theorem responses_names {σ ε : Type} (env : Env) (W : WalkEnv σ ε) (name packageName : String)
    (responses : List (Nat × Response)) :
    (responses.flatMap
        (fun val => referenceOfBody env W name packageName val.2.Bodies)).map (fun sd => sd.Name)
      = List.replicate (responses.filter (fun val => W.HasJSONBody val.2.Bodies)).length name := by
  induction responses with
  | nil => rfl
  | cons val rest ih =>
    rw [List.flatMap_cons, List.map_append, ih, referenceOfBody_names]
    by_cases h : W.HasJSONBody val.2.Bodies = true
    · simp [h, List.filter_cons, List.replicate_succ]
    · simp [h, List.filter_cons]

/-- The names of the structures of one verb slot. -/
theorem referenceOfMethod_names {σ ε : Type} (env : Env) (W : WalkEnv σ ε)
    (N packageName verb : String) (method : Option Method) :
    (referenceOfMethod env W N packageName (verb, method)).map (fun sd => sd.Name)
      = match method with
        | none => []
        | some m =>
          (if W.HasJSONBody m.Bodies then [bodyStructName N verb true] else [])
            ++ List.replicate (jsonResponses W (some m)) (bodyStructName N verb false) := by
  cases method with
  | none => rfl
  | some m =>
    simp only [referenceOfMethod, List.map_append, referenceOfBody_names, responses_names]
    rfl

theorem referenceOfMethod_named {σ ε : Type} (env : Env) (W : WalkEnv σ ε)
    (N packageName verb : String) (method : Option Method) :
    ∀ n ∈ (referenceOfMethod env W N packageName (verb, method)).map (fun sd => sd.Name),
      ∃ d : Bool, n = bodyStructName N verb d := by
  intro n hn
  rw [referenceOfMethod_names] at hn
  cases method with
  | none => simp at hn
  | some m =>
    simp only [List.mem_append] at hn
    rcases hn with h | h
    · split at h
      · simp only [List.mem_singleton] at h
        exact ⟨true, h⟩
      · simp at h
    · exact ⟨false, (List.mem_replicate.mp h).2⟩

theorem referenceOfMethod_nodup {σ ε : Type} (env : Env) (W : WalkEnv σ ε)
    (N packageName verb : String) (method : Option Method) (hv : verb ∈ verbNames)
    (h1 : jsonResponses W method ≤ 1) :
    ((referenceOfMethod env W N packageName (verb, method)).map (fun sd => sd.Name)).Nodup := by
  rw [referenceOfMethod_names]
  cases method with
  | none => exact List.nodup_nil
  | some m =>
    have hne : bodyStructName N verb true ≠ bodyStructName N verb false := by
      intro h
      have := (bodyStructName_inj N N verb verb true false hv hv h).2.2
      cases this
    have hrep : (List.replicate (jsonResponses W (some m))
        (bodyStructName N verb false)).Nodup := by
      have hk : jsonResponses W (some m) = 0 ∨ jsonResponses W (some m) = 1 := by omega
      rcases hk with hk | hk <;> simp [hk]
    simp only
    split
    · refine List.Nodup.append (List.nodup_singleton _) hrep ?_
      intro n hn hr
      simp only [List.mem_singleton] at hn
      rw [hn] at hr
      exact hne (List.mem_replicate.mp hr).2
    · simpa using hrep

theorem slots_named {σ ε : Type} (env : Env) (W : WalkEnv σ ε) (N packageName : String)
    (slots : List (String × Option Method)) :
    ∀ n ∈ (slots.flatMap (referenceOfMethod env W N packageName)).map (fun sd => sd.Name),
      ∃ slot ∈ slots, ∃ d : Bool, n = bodyStructName N slot.1 d := by
  intro n hn
  obtain ⟨sd, hsd, rfl⟩ := List.mem_map.mp hn
  obtain ⟨slot, hslot, hin⟩ := List.mem_flatMap.mp hsd
  obtain ⟨d, hd⟩ := referenceOfMethod_named env W N packageName slot.1 slot.2 sd.Name
    (List.mem_map.mpr ⟨sd, hin, rfl⟩)
  exact ⟨slot, hslot, d, hd⟩

theorem slots_nodup {σ ε : Type} (env : Env) (W : WalkEnv σ ε) (N packageName : String)
    (slots : List (String × Option Method)) (hverbs : (slots.map Prod.fst).Nodup)
    (hmem : ∀ slot ∈ slots, slot.1 ∈ verbNames)
    (h1 : ∀ slot ∈ slots, jsonResponses W slot.2 ≤ 1) :
    ((slots.flatMap (referenceOfMethod env W N packageName)).map (fun sd => sd.Name)).Nodup := by
  induction slots with
  | nil => exact List.nodup_nil
  | cons slot rest ih =>
    rw [List.flatMap_cons, List.map_append]
    simp only [List.map_cons, List.nodup_cons] at hverbs
    have hrest := ih hverbs.2 (fun x hx => hmem x (List.mem_cons_of_mem slot hx))
      (fun x hx => h1 x (List.mem_cons_of_mem slot hx))
    have hslot := referenceOfMethod_nodup env W N packageName slot.1 slot.2
      (hmem slot (List.mem_cons_self slot rest)) (h1 slot (List.mem_cons_self slot rest))
    refine List.Nodup.append hslot hrest ?_
    intro n hn hr
    obtain ⟨d, hd⟩ := referenceOfMethod_named env W N packageName slot.1 slot.2 n hn
    obtain ⟨slot2, hs2, d2, hd2⟩ := slots_named env W N packageName rest n hr
    have := (bodyStructName_inj N N slot.1 slot2.1 d d2
      (hmem slot (List.mem_cons_self slot rest)) (hmem slot2 (List.mem_cons_of_mem slot hs2))
      (hd.symm.trans hd2)).2.1
    exact hverbs.1 (this ▸ List.mem_map_of_mem Prod.fst hs2)

theorem methodTable_verbs (Get Post Head Put Delete Patch Options : Option Method) :
    (methodTable Get Post Head Put Delete Patch Options).map Prod.fst = verbNames := rfl

theorem methodTable_mem (Get Post Head Put Delete Patch Options : Option Method) :
    ∀ slot ∈ methodTable Get Post Head Put Delete Patch Options, slot.1 ∈ verbNames := by
  intro slot hs
  rw [← methodTable_verbs Get Post Head Put Delete Patch Options]
  exact List.mem_map_of_mem Prod.fst hs

mutual

theorem named_resource {σ ε : Type} (env : Env) (W : WalkEnv σ ε) (packageName : String)
    (r : Resource) (a : String) :
    ∀ n ∈ (referenceOfResource env W a packageName r).map (fun sd => sd.Name),
      NamedUnder (normalizedPaths W a r) n := by
  cases r with
  | null =>
    intro n hn
    rw [referenceOfResource] at hn
    simp at hn
  | node URI Get Post Head Put Delete Patch Options Nested =>
    intro n hn
    rw [referenceOfResource, List.map_append] at hn
    rw [normalizedPaths]
    rcases List.mem_append.mp hn with h | h
    · obtain ⟨slot, hslot, d, hd⟩ := slots_named env W _ packageName _ n h
      exact ⟨_, List.mem_cons_self _ _, slot.1,
        methodTable_mem Get Post Head Put Delete Patch Options slot hslot, d, hd⟩
    · exact namedUnder_mono _ _ n (fun N hN => List.mem_cons_of_mem _ hN)
        (named_nested env W packageName Nested (a ++ URI) n h)

theorem named_nested {σ ε : Type} (env : Env) (W : WalkEnv σ ε) (packageName : String)
    (nested : List Resource) (a : String) :
    ∀ n ∈ (referenceOfNested env W a packageName nested).map (fun sd => sd.Name),
      NamedUnder (normalizedPathsList W a nested) n := by
  cases nested with
  | nil =>
    intro n hn
    rw [referenceOfNested] at hn
    simp at hn
  | cons v rest =>
    intro n hn
    rw [referenceOfNested, List.map_append] at hn
    rw [normalizedPathsList]
    rcases List.mem_append.mp hn with h | h
    · exact namedUnder_mono _ _ n (fun N hN => List.mem_append_left _ hN)
        (named_resource env W packageName v a n h)
    · exact namedUnder_mono _ _ n (fun N hN => List.mem_append_right _ hN)
        (named_nested env W packageName rest a n h)

end

mutual

theorem nodup_resource {σ ε : Type} (env : Env) (W : WalkEnv σ ε) (packageName : String)
    (r : Resource) (a : String) (hs : singleJSONResponse W r = true)
    (hp : (normalizedPaths W a r).Nodup) :
    ((referenceOfResource env W a packageName r).map (fun sd => sd.Name)).Nodup := by
  cases r with
  | null =>
    rw [referenceOfResource]
    exact List.nodup_nil
  | node URI Get Post Head Put Delete Patch Options Nested =>
    rw [singleJSONResponse, Bool.and_eq_true, List.all_eq_true] at hs
    rw [normalizedPaths, List.nodup_cons] at hp
    rw [referenceOfResource, List.map_append]
    refine List.Nodup.append ?_ ?_ ?_
    · exact slots_nodup env W _ packageName _
        (by rw [methodTable_verbs]; decide)
        (methodTable_mem Get Post Head Put Delete Patch Options)
        (fun slot hslot => by simpa using hs.1 slot hslot)
    · exact nodup_nested env W packageName Nested (a ++ URI) hs.2 hp.2
    · refine namedUnder_disjoint [W.NormalizeName (W.NormalizeURITitle (a ++ URI))]
        (normalizedPathsList W (a ++ URI) Nested) _ _ ?_
        (named_nested env W packageName Nested (a ++ URI)) ?_
      · intro n hn
        obtain ⟨slot, hslot, d, hd⟩ := slots_named env W _ packageName _ n hn
        exact ⟨_, List.mem_singleton_self _, slot.1,
          methodTable_mem Get Post Head Put Delete Patch Options slot hslot, d, hd⟩
      · intro N h1 h2
        rw [List.mem_singleton] at h1
        exact hp.1 (h1 ▸ h2)

theorem nodup_nested {σ ε : Type} (env : Env) (W : WalkEnv σ ε) (packageName : String)
    (nested : List Resource) (a : String) (hs : singleJSONResponseList W nested = true)
    (hp : (normalizedPathsList W a nested).Nodup) :
    ((referenceOfNested env W a packageName nested).map (fun sd => sd.Name)).Nodup := by
  cases nested with
  | nil =>
    rw [referenceOfNested]
    exact List.nodup_nil
  | cons v rest =>
    rw [singleJSONResponseList, Bool.and_eq_true] at hs
    rw [normalizedPathsList, List.nodup_append] at hp
    rw [referenceOfNested, List.map_append]
    refine List.Nodup.append ?_ ?_ ?_
    · exact nodup_resource env W packageName v a hs.1 hp.1
    · exact nodup_nested env W packageName rest a hs.2 hp.2.1
    · exact namedUnder_disjoint _ _ _ _ (named_resource env W packageName v a)
        (named_nested env W packageName rest a) hp.2.2

end

/-- C14, as stated, fails: the GET method of `twoResponsesTree` has two
responses with a JSON payload, and the walker generates two structures named
`usersGetResp`. -/
theorem response_names_collide_counterexample :
    (generateStructsFromResourceBody (flagEnv false false false false) (sampleWalk none) ""
        "out" "main" twoResponsesTree startRun).1 = none ∧
    (generateStructsFromResourceBody (flagEnv false false false false) (sampleWalk none) ""
        "out" "main" twoResponsesTree startRun).2.generated.map (fun x => x.1.Name)
      = ["usersGetReq", "usersGetResp", "usersGetResp"] ∧
    ¬ ((generateStructsFromResourceBody (flagEnv false false false false) (sampleWalk none) ""
        "out" "main" twoResponsesTree startRun).2.generated.map (fun x => x.1.Name)).Nodup := by
  decide

/-- C14, amended: for a resource tree in which every method has at most one
response with a JSON payload and whose resources have pairwise distinct
normalized paths, the structures `generateStructsFromResourceBody` generates
have pairwise distinct names. -/
theorem body_names_distinct {σ ε : Type} (env : Env) (W : WalkEnv σ ε) (dir packageName : String)
    (r : Resource) (a : String) (st : Run σ ε) (hs : singleJSONResponse W r = true)
    (hp : (normalizedPaths W a r).Nodup) :
    ∃ piece,
      (generateStructsFromResourceBody env W a dir packageName r st).2.generated
        = st.generated ++ piece ∧
      (piece.map (fun x => x.1.Name)).Nodup := by
  obtain ⟨piece, hgen, hpre, _, _, _⟩ := follows_resource env W dir packageName r a st
  refine ⟨piece, hgen, ?_⟩
  have hsub : List.Sublist ((piece.map Prod.fst).map (fun sd => sd.Name))
      ((referenceOfResource env W a packageName r).map (fun sd => sd.Name)) :=
    List.Sublist.map _ hpre.sublist
  have := List.Nodup.sublist hsub (nodup_resource env W packageName r a hs hp)
  simpa [List.map_map] using this

/-- The amended C14 at the tree of §8. -/
theorem body_names_distinct_witness :
    normalizedPaths (sampleWalk none) "" usersTree = ["users", "usersid"] ∧
    ∃ piece,
      (generateStructsFromResourceBody (flagEnv false false false false) (sampleWalk none) ""
          "out" "main" usersTree startRun).2.generated = startRun.generated ++ piece ∧
      (piece.map (fun x => x.1.Name)).Nodup :=
  ⟨by decide,
    body_names_distinct (flagEnv false false false false) (sampleWalk none) "out" "main"
      usersTree "" startRun (by decide) (by decide)⟩

end GoRaml
